import Mathlib

/-!
Verification development for the Resource Governor and Session Lifecycle
Manager of the runautomation-mcpserver repository.

The Resource Governor is the ResourceManager class in
src/src/utils/resourceManager.ts; the Session Registry is the SessionManager
class (sessionManager.ts, bundled in src/src/toolHandler.ts); the Persistence
Store is the SessionPersistence class (sessionPersistence.ts, bundled in
src/src/utils/resourceManager.ts).

The embedding is a shallow one: every TypeScript method becomes a pure Lean
function on an explicit state value.  JavaScript numbers that hold counts or
timestamps are embedded as Int (the code never produces fractional values for
them).  Asynchronous resolution of queued admission promises is embedded as an
explicit list of (operation id, outcome) pairs emitted by each state
transition, and NodeJS timers are embedded as a set of armed operation ids
plus an explicit timer-firing event.
-/

namespace RunAutomation

/-- Configuration of the resource governor, from the ResourceConfig interface.
Only the fields that the admission-control methods read are kept; the fields
sessionIdleTimeout, memoryLimitMB, enableAutoCleanup, cleanupInterval and
maxTotalSessions are never consulted by requestBrowserLaunch, releaseBrowser,
enqueue, processQueue, removeFromQueue or clearQueue. -/
structure ResourceConfig where
  maxConcurrentBrowsers : Int
  maxSessionsPerUser : Int
  maxQueueSize : Int
  queueTimeout : Int
deriving DecidableEq, Repr

/-- Default configuration values from the ResourceManager constructor. -/
def defaultConfig : ResourceConfig :=
  { maxConcurrentBrowsers := 5
    maxSessionsPerUser := 3
    maxQueueSize := 50
    queueTimeout := 300000 }

/-- One queued admission request, from the QueuedOperation interface.  The
string identifiers op-<n> are represented by their numeric component n, which
determines them uniquely.  The type field is always browser_launch at the one
call site of enqueue and is dropped.  The resolve and reject callbacks are
represented by the explicit outcome lists that transitions emit. -/
structure QueuedOp where
  id : Nat
  userId : Option String
  priority : Int
  createdAt : Int
deriving DecidableEq, Repr

/-- State of the ResourceManager instance.  timers is the set of operation
ids whose queue-timeout NodeJS timer is currently armed (a setTimeout handle
exists and has not been cleared). -/
structure RMState where
  config : ResourceConfig
  activeBrowsers : Int
  sessionsByUser : List (String × Int)
  queue : List QueuedOp
  timers : List Nat
  nextOperationId : Nat
  processing : Bool
deriving DecidableEq, Repr

/-- Initial state of a freshly constructed ResourceManager. -/
def initState (cfg : ResourceConfig) : RMState :=
  { config := cfg
    activeBrowsers := 0
    sessionsByUser := []
    queue := []
    timers := []
    nextOperationId := 1
    processing := false }

/-- Lookup in a string-keyed map represented as an association list
(JavaScript Map.get, also the read of a JSON file by path). -/
def alGet {α : Type} (m : List (String × α)) (k : String) : Option α :=
  (m.find? (fun p => p.1 == k)).map (fun p => p.2)

/-- Overwrite-or-insert in a string-keyed map (Map.set, also the overwrite of
a JSON file by path). -/
def alSet {α : Type} (m : List (String × α)) (k : String) (v : α) : List (String × α) :=
  match m with
  | [] => [(k, v)]
  | p :: rest => if p.1 == k then (k, v) :: rest else p :: alSet rest k v

/-- Removal from a string-keyed map (Map.delete, also file deletion). -/
def alErase {α : Type} (m : List (String × α)) (k : String) : List (String × α) :=
  match m with
  | [] => []
  | p :: rest => if p.1 == k then rest else p :: alErase rest k

/-- Lookup in the sessionsByUser map (Map.get). -/
def userGet (m : List (String × Int)) (u : String) : Option Int :=
  alGet m u

/-- Overwrite-or-insert in the sessionsByUser map (Map.set). -/
def userSet (m : List (String × Int)) (u : String) (n : Int) : List (String × Int) :=
  alSet m u n

/-- Removal from the sessionsByUser map (Map.delete). -/
def userDelete (m : List (String × Int)) (u : String) : List (String × Int) :=
  alErase m u

/-- JavaScript truthiness of the optional userId argument: undefined and the
empty string are both falsy, so the user-specific branches run exactly when a
nonempty user id string was passed. -/
def truthyUser : Option String → Bool
  | none => false
  | some u => u != ""

/-- The user-limit test on the immediate-grant path of requestBrowserLaunch:
if (userId and sessionsByUser.get(userId)! >= maxSessionsPerUser).  When the
user has no entry, Map.get returns undefined and the >= comparison is false,
so the branch is not taken; the match below reproduces that. -/
def atUserLimitImmediate (cfg : ResourceConfig) (m : List (String × Int))
    (userId : Option String) : Bool :=
  match userId with
  | none => false
  | some u =>
    if u == "" then false
    else
      match userGet m u with
      | none => false
      | some c => c ≥ cfg.maxSessionsPerUser

/-- Increment of a per-user count on grant:
sessionsByUser.set(userId, (sessionsByUser.get(userId) or 0) + 1). -/
def userIncr (m : List (String × Int)) (userId : Option String) : List (String × Int) :=
  if truthyUser userId then
    match userId with
    | some u => userSet m u (((userGet m u).getD 0) + 1)
    | none => m
  else m

/-- Decrement of a per-user count in releaseBrowser: if the stored count is
greater than 1 it is decremented, otherwise the entry is deleted. -/
def userDecr (m : List (String × Int)) (userId : Option String) : List (String × Int) :=
  if truthyUser userId then
    match userId with
    | some u =>
      let count := (userGet m u).getD 0
      if count > 1 then userSet m u (count - 1) else userDelete m u
    | none => m
  else m

/-- Outcome eventually delivered to a queued admission request: the resolve
call on grant, the reject with a session-limit error during queue processing,
the reject armed by the queue timeout, or the reject issued by clearQueue. -/
inductive QOutcome where
  | granted
  | userLimitRejected
  | timedOut
  | cleared
deriving DecidableEq, Repr

/-- Synchronous result of requestBrowserLaunch: an immediate grant, one of the
two immediate rejections thrown as errors, or the id of a newly queued
operation whose outcome arrives later. -/
inductive LaunchResult where
  | granted
  | queueFullError
  | userLimitError
  | enqueued (opId : Nat)
deriving DecidableEq, Repr

/-- Strict before relation realised by the sort comparator in enqueue:
negative comparator value, meaning higher priority first and, on equal
priority, smaller createdAt first. -/
def cmpBefore (a b : QueuedOp) : Bool :=
  if a.priority != b.priority then a.priority > b.priority
  else a.createdAt < b.createdAt

/-- Insertion of a newly pushed operation into the already sorted queue.
The source pushes the new element and then re-sorts with a stable sort
(Array.prototype.sort is stable); on a sorted array this places the new
element directly after every element it does not strictly precede, which is
exactly this ordered insertion. -/
def insertOp (op : QueuedOp) : List QueuedOp → List QueuedOp
  | [] => [op]
  | e :: rest => if cmpBefore op e then op :: e :: rest else e :: insertOp op rest

/-- The enqueue method: allocate the next operation id, arm the queue-timeout
timer, insert into the queue sorted by priority descending then creation time
ascending, and hand the pending outcome back to the caller. -/
def enqueueOp (s : RMState) (userId : Option String) (priority : Int) (now : Int) :
    LaunchResult × RMState :=
  let op : QueuedOp :=
    { id := s.nextOperationId, userId := userId, priority := priority, createdAt := now }
  (LaunchResult.enqueued op.id,
    { s with
      queue := insertOp op s.queue
      timers := op.id :: s.timers
      nextOperationId := s.nextOperationId + 1 })

/-- The requestBrowserLaunch method.  now is the clock reading used for the
createdAt field of a queued operation. -/
def requestBrowserLaunch (s : RMState) (userId : Option String) (priority : Int)
    (now : Int) : LaunchResult × RMState :=
  if s.activeBrowsers ≥ s.config.maxConcurrentBrowsers then
    if (s.queue.length : Int) ≥ s.config.maxQueueSize then
      (LaunchResult.queueFullError, s)
    else
      enqueueOp s userId priority now
  else if atUserLimitImmediate s.config s.sessionsByUser userId then
    (LaunchResult.userLimitError, s)
  else
    (LaunchResult.granted,
      { s with
        activeBrowsers := s.activeBrowsers + 1
        sessionsByUser := userIncr s.sessionsByUser userId })

/-- Result of the processQueue while loop over the remaining queue. -/
structure LoopResult where
  queue : List QueuedOp
  activeBrowsers : Int
  sessionsByUser : List (String × Int)
  timers : List Nat
  resolved : List (Nat × QOutcome)
deriving DecidableEq, Repr

/-- The user-limit test inside processQueue: here the absent-entry case reads
(sessionsByUser.get(userId) or 0), unlike the immediate path. -/
def atUserLimitQueued (cfg : ResourceConfig) (m : List (String × Int))
    (userId : Option String) : Bool :=
  match userId with
  | none => false
  | some u =>
    if u == "" then false
    else ((userGet m u).getD 0) ≥ cfg.maxSessionsPerUser

/-- The while loop of processQueue: while the queue is nonempty and capacity
remains, shift the head, clear its timer, reject it when its user is at the
session limit, otherwise grant it. -/
def processLoop (cfg : ResourceConfig) : List QueuedOp → Int → List (String × Int) →
    List Nat → LoopResult
  | [], active, users, timers =>
    { queue := [], activeBrowsers := active, sessionsByUser := users,
      timers := timers, resolved := [] }
  | op :: rest, active, users, timers =>
    if active < cfg.maxConcurrentBrowsers then
      let timers1 := timers.erase op.id
      if atUserLimitQueued cfg users op.userId then
        let r := processLoop cfg rest active users timers1
        { r with resolved := (op.id, QOutcome.userLimitRejected) :: r.resolved }
      else
        let r := processLoop cfg rest (active + 1) (userIncr users op.userId) timers1
        { r with resolved := (op.id, QOutcome.granted) :: r.resolved }
    else
      { queue := op :: rest, activeBrowsers := active, sessionsByUser := users,
        timers := timers, resolved := [] }

/-- The processQueue method: returns immediately when a pass is already in
flight or the queue is empty, otherwise runs the loop with the re-entrancy
flag set and clears the flag afterwards. -/
def processQueue (s : RMState) : RMState × List (Nat × QOutcome) :=
  if s.processing || s.queue.isEmpty then (s, [])
  else
    let r := processLoop s.config s.queue s.activeBrowsers s.sessionsByUser s.timers
    ({ s with
        queue := r.queue
        activeBrowsers := r.activeBrowsers
        sessionsByUser := r.sessionsByUser
        timers := r.timers
        processing := false }, r.resolved)

/-- The releaseBrowser method: clamp the active count at zero, decrement the
per-user count, then reprocess the queue. -/
def releaseBrowser (s : RMState) (userId : Option String) :
    RMState × List (Nat × QOutcome) :=
  processQueue
    { s with
      activeBrowsers := max 0 (s.activeBrowsers - 1)
      sessionsByUser := userDecr s.sessionsByUser userId }

/-- The removeFromQueue method: splice out the first queue entry with the
given id and clear its timer; a miss changes nothing. -/
def removeFromQueue (s : RMState) (opId : Nat) : RMState :=
  match s.queue.find? (fun op => op.id == opId) with
  | none => s
  | some _ =>
    { s with
      queue := s.queue.eraseP (fun op => op.id == opId)
      timers := s.timers.erase opId }

/-- Firing of the queue-timeout timer armed by enqueue for operation opId.
A timer can only fire while it is armed (clearTimeout disarms it); the
callback removes the operation from the queue and rejects it with the
timeout error. -/
def fireTimeout (s : RMState) (opId : Nat) : RMState × List (Nat × QOutcome) :=
  if s.timers.contains opId then
    (removeFromQueue { s with timers := s.timers.erase opId } opId,
      [(opId, QOutcome.timedOut)])
  else (s, [])

/-- The clearQueue method: clear every armed timer, reject every queued
operation with the queue-cleared error, and empty the queue. -/
def clearQueue (s : RMState) : RMState × List (Nat × QOutcome) :=
  ({ s with
      queue := []
      timers := s.queue.foldl (fun t op => t.erase op.id) s.timers },
    s.queue.map (fun op => (op.id, QOutcome.cleared)))

/-- External events driving the governor: an admission request, a capacity
release, the firing of one armed queue timer, and a queue clear. -/
inductive GEvent where
  | request (userId : Option String) (priority : Int) (now : Int)
  | release (userId : Option String)
  | timerFires (opId : Nat)
  | clearAll
deriving DecidableEq, Repr

/-- One governor step; the emitted list holds the outcomes delivered to
queued operations by this step. -/
def step (s : RMState) : GEvent → RMState × List (Nat × QOutcome)
  | GEvent.request u p now => ((requestBrowserLaunch s u p now).2, [])
  | GEvent.release u => releaseBrowser s u
  | GEvent.timerFires opId => fireTimeout s opId
  | GEvent.clearAll => clearQueue s

/-- Replay of a list of governor events, accumulating all delivered queued
outcomes. -/
def run (s : RMState) : List GEvent → RMState × List (Nat × QOutcome)
  | [] => (s, [])
  | e :: es =>
    let r := step s e
    let r2 := run r.1 es
    (r2.1, r.2 ++ r2.2)

/-- Ids of the operations currently queued. -/
def queueIds (s : RMState) : List Nat := s.queue.map (fun op => op.id)

/-- Ids carried by a list of delivered outcomes. -/
def outIds (outs : List (Nat × QOutcome)) : List Nat := outs.map (fun o => o.1)

/-- Serves-no-later-than relation of the queue comparator: nonpositive
comparator value, meaning a is served no later than b.  Priority strictly
dominates; equal priorities are ordered by creation time. -/
def opLE (a b : QueuedOp) : Bool :=
  if a.priority = b.priority then a.createdAt ≤ b.createdAt
  else a.priority > b.priority

/-- The queue sorted as maintained by enqueue: every element serves no later
than every element behind it. -/
def queueSortedLE (q : List QueuedOp) : Prop :=
  q.Pairwise (fun a b => opLE a b = true)

/-! ## Persistence store (SessionPersistence, sessionPersistence.ts)

The durable storage collaborator (the fs module) is embedded as an
association list from file path to parsed record: writeFile is overwrite,
readFile of a missing path is the ENOENT outcome embedded as none, unlink is
erase.  JSON serialisation round-trips the record values exactly, so records
are stored as values. -/

/-- Browser engine kinds. -/
inductive BType where
  | chromium
  | firefox
  | webkit
deriving DecidableEq, Repr

/-- Browser settings from the BrowserSettings interface.  The userAgent,
locale, timezoneId, geolocation and permissions fields are passed through to
the engine collaborator without being inspected by any control flow of the
core and are elided. -/
structure BrowserSettings where
  browserType : Option BType
  headless : Option Bool
  viewport : Option (Int × Int)
deriving DecidableEq, Repr

/-- The empty settings object used for session.settings when absent. -/
def emptySettings : BrowserSettings :=
  { browserType := none, headless := none, viewport := none }

/-- A persisted session record, from the PersistedSessionData interface.
Cookies are opaque values handed back and forth to the engine and are
embedded as strings; the two storage snapshots are key-value lists; the ISO
date strings are embedded as the underlying millisecond timestamps. -/
structure PersistedSessionData where
  id : String
  browserType : BType
  settings : BrowserSettings
  pageUrl : String
  cookies : List String
  localStorage : List (String × String)
  sessionStorage : List (String × String)
  viewport : Int × Int
  createdAt : Int
  lastAccessedAt : Int
deriving DecidableEq, Repr

/-- The on-disk persistence directory: file path to record. -/
abbrev Store : Type := List (String × PersistedSessionData)

/-- One step of POSIX path normalization over the slash-separated segments:
empty segments and single dots are dropped, a double dot pops the previous
segment when one exists and is not itself a double dot (leading double dots
of a relative path are kept, as path.normalize does outside the root).  The
accumulator holds the processed segments in reverse. -/
def normStep (acc : List String) (seg : String) : List String :=
  if seg = "" || seg = "." then acc
  else if seg = ".." then
    match acc with
    | [] => [".."]
    | a :: rest => if a = ".." then ".." :: a :: rest else rest
  else seg :: acc

/-- Slash-splitting of a character list into segments, the behaviour of
splitting a path string on the separator, keeping empty segments. -/
def splitSlashAux (acc : List Char) : List Char → List String
  | [] => [String.mk acc.reverse]
  | c :: rest =>
    if c = '/' then String.mk acc.reverse :: splitSlashAux [] rest
    else splitSlashAux (c :: acc) rest

/-- The slash-separated segments of a path string. -/
def splitSlash (s : String) : List String := splitSlashAux [] s.data

/-- Joining segments back with slashes. -/
def joinSegs : List String → String
  | [] => ""
  | [s] => s
  | s :: rest => s ++ "/" ++ joinSegs rest

/-- path.join of a relative directory and a file name: concatenation with a
slash followed by normalization, so distinct names such as s1.json and
./s1.json resolve to the same path. -/
def joinPath (dir name : String) : String :=
  let norm := ((splitSlash (dir ++ "/" ++ name)).foldl normStep []).reverse
  if norm.isEmpty then "." else joinSegs norm

/-- The default persistence directory of the exported singleton,
./.playwright-sessions. -/
def persistenceDir : String := "./.playwright-sessions"

/-- The persistence directory as it appears in normalized file paths. -/
def persistenceDirNormalized : String := joinPath persistenceDir ""

/-- Path of the file holding a session record:
path.join(persistenceDir, sessionId + ".json").  Because path.join
normalizes, the map from identifiers to paths is not injective: ids such as
s1, ./s1 and a/../s1 all alias the same file. -/
def getSessionFilePath (sessionId : String) : String :=
  joinPath persistenceDir (sessionId ++ ".json")

/-- The saveSession method: serialise and write, overwriting any existing
file at the same path. -/
def saveSession (st : Store) (r : PersistedSessionData) : Store :=
  alSet st (getSessionFilePath r.id) r

/-- The loadSession method: none is the ENOENT outcome for a missing file. -/
def loadSession (st : Store) (sessionId : String) : Option PersistedSessionData :=
  alGet st (getSessionFilePath sessionId)

/-- The deleteSession method: unlink, ignoring ENOENT. -/
def deleteSession (st : Store) (sessionId : String) : Store :=
  alErase st (getSessionFilePath sessionId)

/-- Removal of the first occurrence of the pattern from a character list,
the behaviour of String.prototype.replace with an empty replacement. -/
def removeFirstOccur (pat : List Char) : List Char → List Char
  | [] => []
  | c :: rest =>
    if pat.isPrefixOf (c :: rest) then (c :: rest).drop pat.length
    else c :: removeFirstOccur pat rest

/-- file.replace with the .json pattern and empty replacement. -/
def replaceFirst (s pat : String) : String :=
  String.mk (removeFirstOccur pat.data s.data)

/-- A stored path as fs.readdir of the directory reports it: the name after
the directory prefix, provided the path lies directly inside the directory
(paths that escaped the directory or landed in a subdirectory are not
directory entries). -/
def basenameInDir (dir path : String) : Option String :=
  let pre := (dir ++ "/").data
  if pre.isPrefixOf path.data then
    let name := path.data.drop pre.length
    if name.contains '/' then none else some (String.mk name)
  else none

/-- The listPersistedSessions method: directory entries ending in .json with
the first .json occurrence removed. -/
def listPersistedSessions (st : Store) : List String :=
  (((st.filterMap (fun p => basenameInDir persistenceDirNormalized p.1)).filter
    (fun f => List.isSuffixOf ".json".data f.data)).map (fun f => replaceFirst f ".json"))

/-- The loadAllSessions method: load every listed id, skipping the ids whose
load yields nothing. -/
def loadAllSessions (st : Store) : List PersistedSessionData :=
  (listPersistedSessions st).filterMap (fun sessionId => loadSession st sessionId)

/-! ## Session registry (SessionManager, sessionManager.ts)

The browser-engine collaborator is external: launching, page creation,
navigation, cookie and storage restoration are embedded as always-succeeding
external calls, so the registry-visible transitions below are exactly the
session-map and persistence effects of the source.  The one creation failure
the registry itself raises, the already-exists error, is embedded
explicitly. -/

/-- A live session as visible to the registry: the browser and page handles
are external collaborator objects and are elided; the remaining fields are
those of the BrowserSession interface that registry control flow reads. -/
structure SessionRec where
  id : String
  browserType : BType
  consoleLog : List String
  createdAt : Int
  lastAccessedAt : Int
  settings : Option BrowserSettings
deriving DecidableEq, Repr

/-- State of the SessionManager instance. -/
structure Registry where
  sessions : List (String × SessionRec)
  nextSessionId : Nat
deriving DecidableEq, Repr

/-- A freshly constructed SessionManager. -/
def initRegistry : Registry := { sessions := [], nextSessionId := 1 }

/-- The defaultSessionId field. -/
def defaultSessionId : String := "default"

/-- Resolution of the id argument of createSession:
sessionId or session-<nextSessionId++>.  The or operator treats the empty
string as falsy, and the counter is bumped only when the generated arm is
evaluated. -/
def genId (sid : Option String) (next : Nat) : String × Nat :=
  match sid with
  | some s => if s == "" then ("session-" ++ toString next, next + 1) else (s, next)
  | none => ("session-" ++ toString next, next + 1)

/-- The record written by persistSession for a freshly created session: the
new page is still on about:blank with an empty cookie jar and empty storage,
and the viewport is the one from settings or the 1280 by 720 default. -/
def persistRecordOf (sess : SessionRec) : PersistedSessionData :=
  { id := sess.id
    browserType := sess.browserType
    settings := sess.settings.getD emptySettings
    pageUrl := "about:blank"
    cookies := []
    localStorage := []
    sessionStorage := []
    viewport := (sess.settings.bind (fun s => s.viewport)).getD (1280, 720)
    createdAt := sess.createdAt
    lastAccessedAt := sess.lastAccessedAt }

/-- The createSession method.  The message of the already-exists error wraps
the id in single quote characters in the source; the quotes are elided here.
After the duplicate check the engine launch succeeds, the session is stored,
and persistSession writes its best-effort snapshot. -/
def createSession (reg : Registry) (st : Store) (sid : Option String)
    (settings : Option BrowserSettings) (now : Int) :
    Except String String × Registry × Store :=
  let g := genId sid reg.nextSessionId
  let reg1 : Registry := { reg with nextSessionId := g.2 }
  if (alGet reg1.sessions g.1).isSome then
    (Except.error ("Session with ID " ++ g.1 ++ " already exists"), reg1, st)
  else
    let sess : SessionRec :=
      { id := g.1
        browserType := (settings.bind (fun s => s.browserType)).getD BType.chromium
        consoleLog := []
        createdAt := now
        lastAccessedAt := now
        settings := settings }
    let reg2 : Registry := { reg1 with sessions := alSet reg1.sessions g.1 sess }
    (Except.ok g.1, reg2, saveSession st (persistRecordOf sess))

/-- The getSession method: an omitted or empty id falls back to the default
session id, and a successful lookup refreshes lastAccessedAt. -/
def getSession (reg : Registry) (sid : Option String) (now : Int) :
    Option SessionRec × Registry :=
  let id :=
    match sid with
    | some s => if s == "" then defaultSessionId else s
    | none => defaultSessionId
  match alGet reg.sessions id with
  | none => (none, reg)
  | some sess =>
    let sess1 := { sess with lastAccessedAt := now }
    (some sess1, { reg with sessions := alSet reg.sessions id sess1 })

/-- Message of the not-found error thrown by closeSession; the source wraps
the id in single quote characters, elided here. -/
def closeErrMsg (sessionId : String) : String :=
  "Session " ++ sessionId ++ " not found"

/-- The closeSession method: a missing id throws not-found; otherwise pages
and browser are closed best-effort and the finally block always removes the
session from the registry. -/
def closeSession (reg : Registry) (sessionId : String) : Except String Registry :=
  match alGet reg.sessions sessionId with
  | none => Except.error (closeErrMsg sessionId)
  | some _ => Except.ok { reg with sessions := alErase reg.sessions sessionId }

/-- The disconnected callback registered at creation: it deletes the session
from the registry map, a removal that is a no-op when the id is already
absent. -/
def disconnectSession (reg : Registry) (sessionId : String) : Registry :=
  { reg with sessions := alErase reg.sessions sessionId }

/-- Composition of closeSession with a getSession on the same id, the
observable of the close-then-lookup round trip. -/
def closeThenGet (reg : Registry) (sessionId : String) (now : Int) :
    Except String (Option SessionRec) :=
  (closeSession reg sessionId).map (fun reg1 => (getSession reg1 (some sessionId) now).1)

/-- The recoverSession method: a missing persisted record is the not-found
outcome, returned before any session is created; any error thrown while
recreating the session is caught and also surfaced as null.  Navigation,
cookie restoration and storage restoration are external engine calls modelled
as succeeding. -/
def recoverSession (reg : Registry) (st : Store) (sessionId : String) (now : Int) :
    Option String × Registry × Store :=
  match loadSession st sessionId with
  | none => (none, reg, st)
  | some data =>
    match createSession reg st (some sessionId) (some data.settings) now with
    | (Except.error _, reg1, st1) => (none, reg1, st1)
    | (Except.ok newId, reg1, st1) =>
      match getSession reg1 (some newId) now with
      | (none, reg2) => (none, reg2, st1)
      | (some _, reg2) => (some sessionId, reg2, st1)

/-- The loop body of recoverAllSessions: each persisted record is attempted
independently; a null result is recorded against that id with the
recovery-returned-null message, and the remaining records are still
attempted. -/
def recoverAllLoop (now : Int) :
    List PersistedSessionData → Registry → Store →
    (List String × List (String × String)) × Registry × Store
  | [], reg, st => (([], []), reg, st)
  | d :: rest, reg, st =>
    let r := recoverSession reg st d.id now
    let tail := recoverAllLoop now rest r.2.1 r.2.2
    match r.1 with
    | some sid => ((sid :: tail.1.1, tail.1.2), tail.2)
    | none => ((tail.1.1, (d.id, "Recovery returned null") :: tail.1.2), tail.2)

/-- The recoverAllSessions method: snapshot the persisted records once, then
attempt each in order. -/
def recoverAllSessions (reg : Registry) (st : Store) (now : Int) :
    (List String × List (String × String)) × Registry × Store :=
  recoverAllLoop now (loadAllSessions st) reg st

/-- Registry-level events: the session lifecycle operations reachable from
the tool-dispatch layer. -/
inductive REvent where
  | create (sid : Option String) (settings : Option BrowserSettings) (now : Int)
  | close (sid : String)
  | disconnect (sid : String)
  | lookup (sid : Option String) (now : Int)
  | recover (sid : String) (now : Int)
deriving DecidableEq, Repr

/-- One registry step over the combined registry and store state; a close of
an absent id throws, leaving the state unchanged. -/
def rstep (p : Registry × Store) : REvent → Registry × Store
  | REvent.create sid settings now =>
    let r := createSession p.1 p.2 sid settings now
    r.2
  | REvent.close sid =>
    match closeSession p.1 sid with
    | Except.error _ => p
    | Except.ok reg1 => (reg1, p.2)
  | REvent.disconnect sid => (disconnectSession p.1 sid, p.2)
  | REvent.lookup sid now => ((getSession p.1 sid now).2, p.2)
  | REvent.recover sid now =>
    let r := recoverSession p.1 p.2 sid now
    r.2

/-- Replay of registry events. -/
def rrun (p : Registry × Store) : List REvent → Registry × Store
  | [] => p
  | e :: es => rrun (rstep p e) es

/-- The combined initial state: fresh SessionManager, empty persistence
directory. -/
def rinit : Registry × Store := (initRegistry, ([] : Store))

/-! ## Combined system state for the admission contract

Every call site of SessionManager.createSession and closeSession in the
repository (the tool-dispatch layer in toolHandler.ts and the parallel test
executor) invokes the SessionManager directly; no code path in the repository
calls resourceManager.requestBrowserLaunch or releaseBrowser, and the
disconnected callback only deletes the session from the map.  The combined
state below pairs the two singletons so that this can be stated. -/

/-- The two core singleton instances side by side with the persistence
directory. -/
structure SystemState where
  rm : RMState
  reg : Registry
  store : Store
deriving DecidableEq, Repr

/-- SessionManager.createSession as invoked by its repository call sites. -/
def sysCreateSession (s : SystemState) (sid : Option String)
    (settings : Option BrowserSettings) (now : Int) : Except String String × SystemState :=
  let r := createSession s.reg s.store sid settings now
  (r.1, { s with reg := r.2.1, store := r.2.2 })

/-- SessionManager.closeSession as invoked by its repository call sites. -/
def sysCloseSession (s : SystemState) (sessionId : String) :
    Except String Unit × SystemState :=
  match closeSession s.reg sessionId with
  | Except.error e => (Except.error e, s)
  | Except.ok reg1 => (Except.ok (), { s with reg := reg1 })

/-- The browser disconnected callback as wired by createSession. -/
def sysDisconnect (s : SystemState) (sessionId : String) : SystemState :=
  { s with reg := disconnectSession s.reg sessionId }

/-- Store mutations relevant to round-trip fidelity: a save or a delete. -/
inductive StoreOp where
  | save (r : PersistedSessionData)
  | del (sessionId : String)
deriving DecidableEq, Repr

/-- The session id a store mutation is keyed by. -/
def touches : StoreOp → String
  | StoreOp.save r => r.id
  | StoreOp.del sid => sid

/-- Application of one store mutation. -/
def applyStoreOp (st : Store) : StoreOp → Store
  | StoreOp.save r => saveSession st r
  | StoreOp.del sid => deleteSession st sid

/-- Application of a sequence of store mutations. -/
def applyStoreOps (st : Store) : List StoreOp → Store
  | [] => st
  | op :: ops => applyStoreOps (applyStoreOp st op) ops

/-- Well-formedness of the session registry map: one entry per identifier,
and no entry under the empty string, which createSession can never register
(the empty string argument falls back to a generated session-<n> id). -/
def RegWF (reg : Registry) : Prop :=
  (reg.sessions.map (fun p => p.1)).Nodup ∧ ∀ p ∈ reg.sessions, p.1 ≠ ""

/-- The inductive invariant tying the queue, the armed timers and the
outcomes delivered so far: queued ids are distinct and below the id counter,
exactly the queued ids have armed timers, and an id that has already received
an outcome is below the counter, never queued again, and never delivered a
second outcome. -/
structure TraceInv (s : RMState) (outs : List (Nat × QOutcome)) : Prop where
  queue_nodup : (queueIds s).Nodup
  queue_lt : ∀ i ∈ queueIds s, i < s.nextOperationId
  timers_sub : ∀ i ∈ s.timers, i ∈ queueIds s
  queue_sub : ∀ i ∈ queueIds s, i ∈ s.timers
  timers_nodup : s.timers.Nodup
  outs_nodup : (outIds outs).Nodup
  outs_lt : ∀ i ∈ outIds outs, i < s.nextOperationId
  outs_disj : ∀ i ∈ outIds outs, i ∉ queueIds s

/-! ## Configuration constancy along a run -/

theorem step_config (s : RMState) (e : GEvent) : (step s e).1.config = s.config := by
  cases e with
  | request u p now =>
    simp only [step, requestBrowserLaunch, enqueueOp]
    split
    · split
      · rfl
      · rfl
    · split
      · rfl
      · rfl
  | release u =>
    simp only [step, releaseBrowser, processQueue]
    split
    · rfl
    · rfl
  | timerFires opId =>
    simp only [step, fireTimeout, removeFromQueue]
    split
    · split
      · rfl
      · rfl
    · rfl
  | clearAll => rfl

theorem run_config (s : RMState) (events : List GEvent) :
    (run s events).1.config = s.config := by
  induction events generalizing s with
  | nil => rfl
  | cons e es ih => simp only [run]; rw [ih, step_config]

/-! ## Bounds on the active-browser counter -/

theorem processLoop_active_bounds (cfg : ResourceConfig) (q : List QueuedOp) :
    ∀ active users timers, 0 ≤ active → active ≤ cfg.maxConcurrentBrowsers →
      0 ≤ (processLoop cfg q active users timers).activeBrowsers ∧
        (processLoop cfg q active users timers).activeBrowsers ≤ cfg.maxConcurrentBrowsers := by
  induction q with
  | nil =>
    intro active users timers h0 h1
    exact ⟨h0, h1⟩
  | cons op rest ih =>
    intro active users timers h0 h1
    simp only [processLoop]
    split
    · split
      · simpa using ih active users (timers.erase op.id) h0 h1
      · rename_i hlt _
        simpa using ih (active + 1) (userIncr users op.userId) (timers.erase op.id)
          (by omega) (by omega)
    · exact ⟨h0, h1⟩

theorem processQueue_active_bounds (s : RMState)
    (h0 : 0 ≤ s.activeBrowsers) (h1 : s.activeBrowsers ≤ s.config.maxConcurrentBrowsers) :
    0 ≤ (processQueue s).1.activeBrowsers ∧
      (processQueue s).1.activeBrowsers ≤ s.config.maxConcurrentBrowsers := by
  simp only [processQueue]
  split
  · exact ⟨h0, h1⟩
  · simpa using processLoop_active_bounds s.config s.queue s.activeBrowsers
      s.sessionsByUser s.timers h0 h1

theorem step_active_bounds (s : RMState) (e : GEvent)
    (hmax : 0 ≤ s.config.maxConcurrentBrowsers)
    (h0 : 0 ≤ s.activeBrowsers) (h1 : s.activeBrowsers ≤ s.config.maxConcurrentBrowsers) :
    0 ≤ (step s e).1.activeBrowsers ∧
      (step s e).1.activeBrowsers ≤ s.config.maxConcurrentBrowsers := by
  cases e with
  | request u p now =>
    simp only [step, requestBrowserLaunch, enqueueOp]
    split
    · split
      · exact ⟨h0, h1⟩
      · exact ⟨h0, h1⟩
    · split
      · exact ⟨h0, h1⟩
      · rename_i hge _
        refine ⟨?_, ?_⟩ <;> simp <;> omega
  | release u =>
    simp only [step, releaseBrowser]
    have := processQueue_active_bounds
      { s with
        activeBrowsers := max 0 (s.activeBrowsers - 1)
        sessionsByUser := userDecr s.sessionsByUser u }
      (by simp) (by simp; omega)
    simpa using this
  | timerFires opId =>
    simp only [step, fireTimeout, removeFromQueue]
    split
    · split
      · exact ⟨h0, h1⟩
      · exact ⟨h0, h1⟩
    · exact ⟨h0, h1⟩
  | clearAll => exact ⟨h0, h1⟩

theorem run_active_bounds (s : RMState) (events : List GEvent)
    (hmax : 0 ≤ s.config.maxConcurrentBrowsers)
    (h0 : 0 ≤ s.activeBrowsers) (h1 : s.activeBrowsers ≤ s.config.maxConcurrentBrowsers) :
    0 ≤ (run s events).1.activeBrowsers ∧
      (run s events).1.activeBrowsers ≤ s.config.maxConcurrentBrowsers := by
  induction events generalizing s with
  | nil => exact ⟨h0, h1⟩
  | cons e es ih =>
    simp only [run]
    have hc := step_config s e
    have hb := step_active_bounds s e hmax h0 h1
    have := ih (step s e).1 (by rw [hc]; exact hmax) hb.1 (by rw [hc]; exact hb.2)
    rw [step_config s e] at this
    exact this

/-- C2: for every sequence of requestBrowserLaunch and releaseBrowser calls,
including queue reprocessing, the active-instance counter never exceeds the
configured maxConcurrentBrowsers and never becomes negative.  The run below
also allows timer firings and queue clears to interleave, which only
strengthens the statement. -/
theorem c2_activeBrowsers_bounded (cfg : ResourceConfig)
    (hmax : 0 ≤ cfg.maxConcurrentBrowsers) (events : List GEvent) :
    0 ≤ (run (initState cfg) events).1.activeBrowsers ∧
      (run (initState cfg) events).1.activeBrowsers ≤ cfg.maxConcurrentBrowsers :=
  run_active_bounds (initState cfg) events hmax (Int.le_refl 0) hmax

/-- Witness for c2_activeBrowsers_bounded at a concrete run. -/
theorem c2_activeBrowsers_bounded_witness :
    0 ≤ (run (initState defaultConfig)
        [GEvent.request none 0 0, GEvent.request none 0 1, GEvent.release none]).1.activeBrowsers ∧
      (run (initState defaultConfig)
        [GEvent.request none 0 0, GEvent.request none 0 1, GEvent.release none]).1.activeBrowsers
        ≤ defaultConfig.maxConcurrentBrowsers :=
  c2_activeBrowsers_bounded defaultConfig (by decide)
    [GEvent.request none 0 0, GEvent.request none 0 1, GEvent.release none]

/-! ## Bounds on the queue length -/

theorem insertOp_length (op : QueuedOp) (q : List QueuedOp) :
    (insertOp op q).length = q.length + 1 := by
  induction q with
  | nil => rfl
  | cons e rest ih =>
    simp only [insertOp]
    split
    · simp
    · simp [ih]

theorem eraseP_length_le {α : Type} (p : α → Bool) (l : List α) :
    (l.eraseP p).length ≤ l.length := by
  induction l with
  | nil => simp [List.eraseP]
  | cons a rest ih =>
    rw [List.eraseP_cons]
    cases p a with
    | true => simp
    | false => simpa using ih

theorem processLoop_queue_le (cfg : ResourceConfig) (q : List QueuedOp) :
    ∀ active users timers,
      (processLoop cfg q active users timers).queue.length ≤ q.length := by
  induction q with
  | nil => intro active users timers; simp [processLoop]
  | cons op rest ih =>
    intro active users timers
    simp only [processLoop]
    split
    · split
      · simpa using Nat.le_succ_of_le (ih active users (timers.erase op.id))
      · simpa using Nat.le_succ_of_le
          (ih (active + 1) (userIncr users op.userId) (timers.erase op.id))
    · simp

theorem step_queue_le (s : RMState) (e : GEvent)
    (hq : 0 ≤ s.config.maxQueueSize)
    (h : (s.queue.length : Int) ≤ s.config.maxQueueSize) :
    ((step s e).1.queue.length : Int) ≤ s.config.maxQueueSize := by
  cases e with
  | request u p now =>
    simp only [step, requestBrowserLaunch, enqueueOp]
    split
    · split
      · exact h
      · rename_i hfull
        simp only [insertOp_length]
        push_cast
        omega
    · split
      · exact h
      · exact h
  | release u =>
    simp only [step, releaseBrowser, processQueue]
    split
    · exact h
    · have := processLoop_queue_le s.config s.queue
        (max 0 (s.activeBrowsers - 1)) (userDecr s.sessionsByUser u) s.timers
      simp only []
      calc ((processLoop s.config s.queue (max 0 (s.activeBrowsers - 1))
              (userDecr s.sessionsByUser u) s.timers).queue.length : Int)
          ≤ (s.queue.length : Int) := by exact_mod_cast this
        _ ≤ s.config.maxQueueSize := h
  | timerFires opId =>
    simp only [step, fireTimeout, removeFromQueue]
    split
    · split
      · exact h
      · have := eraseP_length_le (fun op => op.id == opId) s.queue
        calc ((s.queue.eraseP (fun op => op.id == opId)).length : Int)
            ≤ (s.queue.length : Int) := by exact_mod_cast this
          _ ≤ s.config.maxQueueSize := h
    · exact h
  | clearAll => simpa using hq

theorem run_queue_le (s : RMState) (events : List GEvent)
    (hq : 0 ≤ s.config.maxQueueSize)
    (h : (s.queue.length : Int) ≤ s.config.maxQueueSize) :
    ((run s events).1.queue.length : Int) ≤ s.config.maxQueueSize := by
  induction events generalizing s with
  | nil => exact h
  | cons e es ih =>
    simp only [run]
    have hc := step_config s e
    have hb := step_queue_le s e hq h
    have := ih (step s e).1 (by rw [hc]; exact hq) (by rw [hc]; exact hb)
    rw [step_config s e] at this
    exact this

/-- C7: the number of queued admission requests never exceeds maxQueueSize,
and whenever capacity is exhausted while the queue already holds at least
maxQueueSize entries, requestBrowserLaunch fails immediately with the
queue-full error, leaving the state, and in particular the queue,
unchanged. -/
theorem c7_queue_bounded_and_full_rejected (cfg : ResourceConfig)
    (hq : 0 ≤ cfg.maxQueueSize) (events : List GEvent) :
    ((run (initState cfg) events).1.queue.length : Int) ≤ cfg.maxQueueSize ∧
      (∀ (s : RMState) (u : Option String) (p now : Int),
        s.activeBrowsers ≥ s.config.maxConcurrentBrowsers →
        (s.queue.length : Int) ≥ s.config.maxQueueSize →
        requestBrowserLaunch s u p now = (LaunchResult.queueFullError, s)) := by
  constructor
  · exact run_queue_le (initState cfg) events hq (by simp [initState]; exact hq)
  · intro s u p now hcap hfull
    simp [requestBrowserLaunch, hcap, hfull]

/-- Witness for c7_queue_bounded_and_full_rejected: scenario 2 of the spec,
max queue size 0 with the single capacity slot consumed; the second request
is rejected at once with the queue-full error and nothing is enqueued. -/
theorem c7_queue_bounded_and_full_rejected_witness :
    (((run (initState
        { maxConcurrentBrowsers := 1, maxSessionsPerUser := 3,
          maxQueueSize := 0, queueTimeout := 300000 })
        [GEvent.request none 0 0]).1.queue.length : Int) ≤ (0 : Int)) ∧
      requestBrowserLaunch
        (run (initState
          { maxConcurrentBrowsers := 1, maxSessionsPerUser := 3,
            maxQueueSize := 0, queueTimeout := 300000 })
          [GEvent.request none 0 0]).1 none 0 1
        = (LaunchResult.queueFullError,
            (run (initState
              { maxConcurrentBrowsers := 1, maxSessionsPerUser := 3,
                maxQueueSize := 0, queueTimeout := 300000 })
              [GEvent.request none 0 0]).1) := by
  have h := c7_queue_bounded_and_full_rejected
    { maxConcurrentBrowsers := 1, maxSessionsPerUser := 3,
      maxQueueSize := 0, queueTimeout := 300000 } (by decide) [GEvent.request none 0 0]
  exact ⟨h.1, h.2 _ none 0 1 (by decide) (by decide)⟩

/-! ## Bounds on the per-user session counts -/

theorem alGet_some_mem {α : Type} {m : List (String × α)} {k : String} {v : α}
    (h : alGet m k = some v) : ∃ p ∈ m, p.1 = k ∧ p.2 = v := by
  unfold alGet at h
  rw [Option.map_eq_some'] at h
  obtain ⟨p, hfind, hv⟩ := h
  refine ⟨p, List.mem_of_find?_eq_some hfind, ?_, hv⟩
  have := List.find?_some hfind
  simpa using this

theorem mem_alSet {α : Type} {m : List (String × α)} {k : String} {v : α} {p : String × α}
    (h : p ∈ alSet m k v) : p = (k, v) ∨ p ∈ m := by
  induction m with
  | nil => simpa [alSet] using h
  | cons q rest ih =>
    simp only [alSet] at h
    by_cases hq : (q.1 == k) = true
    · rw [if_pos hq] at h
      rcases List.mem_cons.mp h with h1 | h1
      · exact Or.inl h1
      · exact Or.inr (List.mem_cons_of_mem _ h1)
    · rw [if_neg hq] at h
      rcases List.mem_cons.mp h with h1 | h1
      · exact Or.inr (by simp [h1])
      · rcases ih h1 with h2 | h2
        · exact Or.inl h2
        · exact Or.inr (List.mem_cons_of_mem _ h2)

theorem mem_alErase {α : Type} {m : List (String × α)} {k : String} {p : String × α}
    (h : p ∈ alErase m k) : p ∈ m := by
  induction m with
  | nil => simpa [alErase] using h
  | cons q rest ih =>
    simp only [alErase] at h
    by_cases hq : (q.1 == k) = true
    · rw [if_pos hq] at h
      exact List.mem_cons_of_mem _ h
    · rw [if_neg hq] at h
      rcases List.mem_cons.mp h with h1 | h1
      · simp [h1]
      · exact List.mem_cons_of_mem _ (ih h1)

theorem valuesLE_userIncr_imm (cfg : ResourceConfig) {m : List (String × Int)}
    {uid : Option String} (h1 : 1 ≤ cfg.maxSessionsPerUser)
    (hguard : atUserLimitImmediate cfg m uid = false)
    (hv : ∀ p ∈ m, p.2 ≤ cfg.maxSessionsPerUser) :
    ∀ p ∈ userIncr m uid, p.2 ≤ cfg.maxSessionsPerUser := by
  intro p hp
  unfold userIncr at hp
  split at hp
  · rename_i htruthy
    match uid, htruthy with
    | some u, htruthy =>
      have hu : (u == "") = false := by
        simp only [truthyUser] at htruthy
        simpa using htruthy
      simp only [atUserLimitImmediate, hu, if_neg] at hguard
      simp only [userSet] at hp
      rcases mem_alSet hp with h2 | h2
      · subst h2
        cases hget : userGet m u with
        | none =>
          simp [hget] at hguard ⊢
          omega
        | some c =>
          rw [hget] at hguard
          simp at hguard
          simp [hget]
          omega
      · exact hv p h2
  · exact hv p hp

theorem valuesLE_userIncr_queued (cfg : ResourceConfig) {m : List (String × Int)}
    {uid : Option String}
    (hguard : atUserLimitQueued cfg m uid = false)
    (hv : ∀ p ∈ m, p.2 ≤ cfg.maxSessionsPerUser) :
    ∀ p ∈ userIncr m uid, p.2 ≤ cfg.maxSessionsPerUser := by
  intro p hp
  unfold userIncr at hp
  split at hp
  · rename_i htruthy
    match uid, htruthy with
    | some u, htruthy =>
      have hu : (u == "") = false := by
        simp only [truthyUser] at htruthy
        simpa using htruthy
      simp only [atUserLimitQueued, hu, if_neg] at hguard
      simp only [userSet] at hp
      rcases mem_alSet hp with h2 | h2
      · subst h2
        simp at hguard ⊢
        omega
      · exact hv p h2
  · exact hv p hp

theorem valuesLE_userDecr (cfg : ResourceConfig) {m : List (String × Int)}
    {uid : Option String}
    (hv : ∀ p ∈ m, p.2 ≤ cfg.maxSessionsPerUser) :
    ∀ p ∈ userDecr m uid, p.2 ≤ cfg.maxSessionsPerUser := by
  intro p hp
  unfold userDecr at hp
  split at hp
  · rename_i htruthy
    match uid, htruthy with
    | some u, _ =>
      simp only at hp
      split at hp
      · rename_i hcount
        simp only [userSet] at hp
        rcases mem_alSet hp with h2 | h2
        · subst h2
          cases hget : userGet m u with
          | none => simp [hget] at hcount
          | some c =>
            obtain ⟨q, hqm, _, hqv⟩ := alGet_some_mem (hget : alGet m u = some c)
            have hq := hv q hqm
            simp [hget]
            omega
        · exact hv p h2
      · simp only [userDelete] at hp
        exact hv p (mem_alErase hp)
  · exact hv p hp

theorem processLoop_users_le (cfg : ResourceConfig) (q : List QueuedOp) :
    ∀ active users timers,
      (∀ p ∈ users, p.2 ≤ cfg.maxSessionsPerUser) →
      ∀ p ∈ (processLoop cfg q active users timers).sessionsByUser,
        p.2 ≤ cfg.maxSessionsPerUser := by
  induction q with
  | nil => intro active users timers hv; exact hv
  | cons op rest ih =>
    intro active users timers hv
    simp only [processLoop]
    split
    · split
      · simpa using ih active users (timers.erase op.id) hv
      · rename_i _ hguard
        simpa using ih (active + 1) (userIncr users op.userId) (timers.erase op.id)
          (valuesLE_userIncr_queued cfg (by simpa using hguard) hv)
    · exact hv

theorem step_users_le (s : RMState) (e : GEvent)
    (h1 : 1 ≤ s.config.maxSessionsPerUser)
    (hv : ∀ p ∈ s.sessionsByUser, p.2 ≤ s.config.maxSessionsPerUser) :
    ∀ p ∈ (step s e).1.sessionsByUser, p.2 ≤ s.config.maxSessionsPerUser := by
  cases e with
  | request u p now =>
    simp only [step, requestBrowserLaunch, enqueueOp]
    split
    · split
      · exact hv
      · exact hv
    · split
      · exact hv
      · rename_i hguard
        simpa using valuesLE_userIncr_imm s.config h1 (by simpa using hguard) hv
  | release u =>
    simp only [step, releaseBrowser, processQueue]
    split
    · simpa using valuesLE_userDecr s.config hv
    · simpa using processLoop_users_le s.config s.queue
        (max 0 (s.activeBrowsers - 1)) (userDecr s.sessionsByUser u) s.timers
        (valuesLE_userDecr s.config hv)
  | timerFires opId =>
    simp only [step, fireTimeout, removeFromQueue]
    split
    · split
      · exact hv
      · exact hv
    · exact hv
  | clearAll => exact hv

theorem run_users_le (s : RMState) (events : List GEvent)
    (h1 : 1 ≤ s.config.maxSessionsPerUser)
    (hv : ∀ p ∈ s.sessionsByUser, p.2 ≤ s.config.maxSessionsPerUser) :
    ∀ p ∈ (run s events).1.sessionsByUser, p.2 ≤ s.config.maxSessionsPerUser := by
  induction events generalizing s with
  | nil => exact hv
  | cons e es ih =>
    simp only [run]
    have hc := step_config s e
    have hb := step_users_le s e h1 hv
    have := ih (step s e).1 (by rw [hc]; exact h1) (by rw [hc]; exact hb)
    rw [step_config s e] at this
    exact this

/-- C3 as amended: provided the configured maxSessionsPerUser is at least 1,
every per-user count recorded by the governor in any reachable state, and so
in particular the count observed right after any grant, is at most
maxSessionsPerUser. -/
theorem c3_user_count_bounded (cfg : ResourceConfig)
    (h1 : 1 ≤ cfg.maxSessionsPerUser) (events : List GEvent) (u : String) (c : Int)
    (hc : userGet (run (initState cfg) events).1.sessionsByUser u = some c) :
    c ≤ cfg.maxSessionsPerUser := by
  obtain ⟨p, hpm, _, hpv⟩ := alGet_some_mem (hc : alGet _ u = some c)
  have := run_users_le (initState cfg) events h1 (by intro p hp; simp [initState] at hp) p hpm
  simpa [hpv] using this

/-- Witness for c3_user_count_bounded at a concrete granted request. -/
theorem c3_user_count_bounded_witness :
    (1 : Int) ≤ defaultConfig.maxSessionsPerUser ∧
      userGet (run (initState defaultConfig)
        [GEvent.request (some "u1") 0 0]).1.sessionsByUser "u1" = some 1 ∧
      (1 : Int) ≤ defaultConfig.maxSessionsPerUser :=
  ⟨by decide,
   by decide,
   c3_user_count_bounded defaultConfig (by decide) [GEvent.request (some "u1") 0 0]
     "u1" 1 (by decide)⟩

/-- Counterexample to C3 as stated: with maxSessionsPerUser configured to 0,
a first request by a fresh user is granted immediately, because the
user-limit test reads the absent map entry as undefined and the comparison
undefined at-least 0 is false; after the grant the user count is 1, which
exceeds the configured limit 0. -/
theorem c3_counterexample :
    (requestBrowserLaunch (initState
        { maxConcurrentBrowsers := 5, maxSessionsPerUser := 0,
          maxQueueSize := 50, queueTimeout := 300000 }) (some "u1") 0 0).1
      = LaunchResult.granted ∧
    userGet (requestBrowserLaunch (initState
        { maxConcurrentBrowsers := 5, maxSessionsPerUser := 0,
          maxQueueSize := 50, queueTimeout := 300000 }) (some "u1") 0 0).2.sessionsByUser "u1"
      = some 1 ∧
    ¬ ((1 : Int) ≤ (0 : Int)) := by
  refine ⟨by decide, by decide, by decide⟩

/-! ## Exactly-once outcome delivery for queued requests -/

theorem insertOp_perm (op : QueuedOp) (q : List QueuedOp) :
    (insertOp op q).Perm (op :: q) := by
  induction q with
  | nil => exact List.Perm.refl _
  | cons e rest ih =>
    simp only [insertOp]
    split
    · exact List.Perm.refl _
    · exact (ih.cons e).trans (List.Perm.swap op e rest)

theorem mem_foldl_erase (ids : List Nat) :
    ∀ t : List Nat, t.Nodup → ∀ i : Nat,
      (i ∈ ids.foldl (fun tt a => tt.erase a) t ↔ i ∈ t ∧ i ∉ ids) := by
  induction ids with
  | nil => intro t _ i; simp
  | cons a rest ih =>
    intro t ht i
    simp only [List.foldl_cons]
    rw [ih (t.erase a) (ht.erase a) i, ht.mem_erase_iff]
    constructor
    · rintro ⟨⟨hne, hit⟩, hrest⟩
      exact ⟨hit, by simp [hne, hrest]⟩
    · rintro ⟨hit, hni⟩
      simp only [List.mem_cons, not_or] at hni
      exact ⟨⟨hni.1, hit⟩, hni.2⟩

theorem nodup_foldl_erase (ids : List Nat) :
    ∀ t : List Nat, t.Nodup → (ids.foldl (fun tt a => tt.erase a) t).Nodup := by
  induction ids with
  | nil => intro t ht; exact ht
  | cons a rest ih => intro t ht; exact ih (t.erase a) (ht.erase a)

theorem processLoop_split (cfg : ResourceConfig) (q : List QueuedOp) :
    ∀ active users timers, ∃ pre : List QueuedOp,
      q = pre ++ (processLoop cfg q active users timers).queue ∧
      (processLoop cfg q active users timers).resolved.map (fun o => o.1)
        = pre.map (fun op => op.id) ∧
      (processLoop cfg q active users timers).timers
        = pre.foldl (fun t op => t.erase op.id) timers := by
  induction q with
  | nil =>
    intro active users timers
    exact ⟨[], by simp [processLoop], by simp [processLoop], by simp [processLoop]⟩
  | cons op rest ih =>
    intro active users timers
    simp only [processLoop]
    split
    · split
      · obtain ⟨pre, h1, h2, h3⟩ := ih active users (timers.erase op.id)
        exact ⟨op :: pre, by simpa using h1, by simpa using h2, by simpa using h3⟩
      · obtain ⟨pre, h1, h2, h3⟩ := ih (active + 1) (userIncr users op.userId)
          (timers.erase op.id)
        exact ⟨op :: pre, by simpa using h1, by simpa using h2, by simpa using h3⟩
    · exact ⟨[], by simp, by simp, by simp⟩

theorem traceInv_init (cfg : ResourceConfig) : TraceInv (initState cfg) [] := by
  constructor <;> simp [initState, queueIds, outIds]

theorem traceInv_request (s : RMState) (outs : List (Nat × QOutcome))
    (u : Option String) (p now : Int) (inv : TraceInv s outs) :
    TraceInv (requestBrowserLaunch s u p now).2 outs := by
  simp only [requestBrowserLaunch, enqueueOp]
  split
  · split
    · exact inv
    · set op : QueuedOp :=
        { id := s.nextOperationId, userId := u, priority := p, createdAt := now } with hop
      have hperm : ((insertOp op s.queue).map (fun o => o.id)).Perm (op.id :: queueIds s) := by
        simpa [queueIds] using (insertOp_perm op s.queue).map (fun o => o.id)
      have hmem : ∀ i, i ∈ (insertOp op s.queue).map (fun o => o.id) ↔
          i = op.id ∨ i ∈ queueIds s := by
        intro i
        rw [hperm.mem_iff]
        simp
      have hopnot : op.id ∉ queueIds s := by
        intro h
        have := inv.queue_lt _ h
        simp [hop] at this
      have hoptim : op.id ∉ s.timers := by
        intro h
        exact hopnot (inv.timers_sub _ h)
      constructor
      · show ((insertOp op s.queue).map (fun o => o.id)).Nodup
        exact hperm.nodup_iff.mpr (List.nodup_cons.mpr ⟨hopnot, inv.queue_nodup⟩)
      · intro i hi
        replace hi : i ∈ (insertOp op s.queue).map (fun o => o.id) := hi
        rw [hmem i] at hi
        show i < s.nextOperationId + 1
        rcases hi with hi | hi
        · simp [hi, hop]
        · have := inv.queue_lt _ hi
          omega
      · intro i hi
        rcases List.mem_cons.mp hi with hi | hi
        · exact (hmem i).mpr (Or.inl hi)
        · exact (hmem i).mpr (Or.inr (inv.timers_sub _ hi))
      · intro i hi
        rcases (hmem i).mp hi with hi | hi
        · exact List.mem_cons.mpr (Or.inl hi)
        · exact List.mem_cons.mpr (Or.inr (inv.queue_sub _ hi))
      · exact List.nodup_cons.mpr ⟨hoptim, inv.timers_nodup⟩
      · exact inv.outs_nodup
      · intro i hi
        have := inv.outs_lt _ hi
        show i < s.nextOperationId + 1
        omega
      · intro i hi
        show i ∉ (insertOp op s.queue).map (fun o => o.id)
        rw [hmem i]
        push_neg
        refine ⟨?_, inv.outs_disj _ hi⟩
        have := inv.outs_lt _ hi
        simp only [hop]
        omega
  · split
    · exact inv
    · exact ⟨inv.queue_nodup, inv.queue_lt, inv.timers_sub, inv.queue_sub,
        inv.timers_nodup, inv.outs_nodup, inv.outs_lt, inv.outs_disj⟩

theorem traceInv_processQueue (s : RMState) (outs : List (Nat × QOutcome))
    (inv : TraceInv s outs) :
    TraceInv (processQueue s).1 (outs ++ (processQueue s).2) := by
  simp only [processQueue]
  split
  · simpa using inv
  · obtain ⟨pre, h1, h2, h3⟩ :=
      processLoop_split s.config s.queue s.activeBrowsers s.sessionsByUser s.timers
    set r := processLoop s.config s.queue s.activeBrowsers s.sessionsByUser s.timers with hr
    have hids : queueIds s = pre.map (fun op => op.id) ++ r.queue.map (fun op => op.id) := by
      rw [queueIds, h1, List.map_append]
    obtain ⟨hpn, hqn, hdisj⟩ := List.nodup_append.mp (hids ▸ inv.queue_nodup)
    have hfold : r.timers = (pre.map (fun op => op.id)).foldl (fun tt a => tt.erase a) s.timers := by
      rw [h3, List.foldl_map]
    have htmem : ∀ i, i ∈ r.timers ↔ i ∈ s.timers ∧ i ∉ pre.map (fun op => op.id) := by
      intro i
      rw [hfold]
      exact mem_foldl_erase _ s.timers inv.timers_nodup i
    have houtids : outIds (outs ++ r.resolved) = outIds outs ++ pre.map (fun op => op.id) := by
      rw [outIds, List.map_append, ← h2]
      rfl
    constructor
    · show (r.queue.map (fun op => op.id)).Nodup
      exact hqn
    · intro i hi
      exact inv.queue_lt i (hids ▸ List.mem_append_right _ hi)
    · intro i hi
      have h4 := (htmem i).mp hi
      have h5 := inv.timers_sub _ h4.1
      rw [hids] at h5
      rcases List.mem_append.mp h5 with h6 | h6
      · exact absurd h6 h4.2
      · exact h6
    · intro i hi
      refine (htmem i).mpr ⟨inv.queue_sub i (hids ▸ List.mem_append_right _ hi), ?_⟩
      intro hip
      exact hdisj hip hi
    · rw [hfold]
      exact nodup_foldl_erase _ s.timers inv.timers_nodup
    · rw [houtids]
      exact List.nodup_append.mpr ⟨inv.outs_nodup, hpn, by
        intro i hio hip
        exact inv.outs_disj i hio (hids ▸ List.mem_append_left _ hip)⟩
    · intro i hi
      rw [houtids] at hi
      rcases List.mem_append.mp hi with h4 | h4
      · exact inv.outs_lt _ h4
      · exact inv.queue_lt i (hids ▸ List.mem_append_left _ h4)
    · intro i hi
      rw [houtids] at hi
      show i ∉ r.queue.map (fun op => op.id)
      rcases List.mem_append.mp hi with h4 | h4
      · intro hiq
        exact inv.outs_disj i h4 (hids ▸ List.mem_append_right _ hiq)
      · intro hiq
        exact hdisj h4 hiq

theorem traceInv_fireTimeout (s : RMState) (outs : List (Nat × QOutcome)) (opId : Nat)
    (inv : TraceInv s outs) :
    TraceInv (fireTimeout s opId).1 (outs ++ (fireTimeout s opId).2) := by
  simp only [fireTimeout]
  split
  · rename_i harm
    have hmemT : opId ∈ s.timers := List.elem_iff.mp harm
    have hmemQ : opId ∈ queueIds s := inv.timers_sub _ hmemT
    obtain ⟨op0, hop0, hid0⟩ : ∃ op ∈ s.queue, op.id = opId := by
      simpa [queueIds] using hmemQ
    simp only [removeFromQueue]
    split
    · rename_i hnone
      rw [List.find?_eq_none] at hnone
      exact absurd (by simp [hid0]) (hnone op0 hop0)
    · have hqids : (s.queue.eraseP (fun op => op.id == opId)).map (fun op => op.id)
          = (queueIds s).erase opId := by
        rw [queueIds, List.erase_eq_eraseP' opId, List.eraseP_map]
        rfl
      have hqmem : ∀ i, i ∈ (queueIds s).erase opId ↔ i ≠ opId ∧ i ∈ queueIds s := by
        intro i
        exact inv.queue_nodup.mem_erase_iff
      have htmem : ∀ i, i ∈ (s.timers.erase opId).erase opId ↔
          i ≠ opId ∧ i ∈ s.timers := by
        intro i
        rw [(inv.timers_nodup.erase opId).mem_erase_iff, inv.timers_nodup.mem_erase_iff]
        tauto
      have hout : outIds (outs ++ [(opId, QOutcome.timedOut)]) = outIds outs ++ [opId] := by
        simp [outIds]
      constructor
      · show ((s.queue.eraseP (fun op => op.id == opId)).map (fun op => op.id)).Nodup
        rw [hqids]
        exact inv.queue_nodup.erase opId
      · intro i hi
        replace hi : i ∈ (s.queue.eraseP (fun op => op.id == opId)).map (fun op => op.id) := hi
        rw [hqids] at hi
        exact inv.queue_lt i (List.mem_of_mem_erase hi)
      · intro i hi
        have h4 := (htmem i).mp hi
        show i ∈ (s.queue.eraseP (fun op => op.id == opId)).map (fun op => op.id)
        rw [hqids, hqmem i]
        exact ⟨h4.1, inv.timers_sub _ h4.2⟩
      · intro i hi
        replace hi : i ∈ (s.queue.eraseP (fun op => op.id == opId)).map (fun op => op.id) := hi
        rw [hqids, hqmem i] at hi
        exact (htmem i).mpr ⟨hi.1, inv.queue_sub _ hi.2⟩
      · exact (inv.timers_nodup.erase opId).erase opId
      · rw [hout]
        refine List.nodup_append.mpr ⟨inv.outs_nodup, List.nodup_singleton opId, ?_⟩
        intro i hio hii
        rw [List.mem_singleton] at hii
        subst hii
        exact inv.outs_disj i hio hmemQ
      · intro i hi
        rw [hout] at hi
        rcases List.mem_append.mp hi with h4 | h4
        · exact inv.outs_lt _ h4
        · rw [List.mem_singleton] at h4
          subst h4
          exact inv.queue_lt _ hmemQ
      · intro i hi
        rw [hout] at hi
        show i ∉ (s.queue.eraseP (fun op => op.id == opId)).map (fun op => op.id)
        rw [hqids, hqmem i]
        rcases List.mem_append.mp hi with h4 | h4
        · intro hcon
          exact inv.outs_disj i h4 hcon.2
        · rw [List.mem_singleton] at h4
          subst h4
          intro hcon
          exact hcon.1 rfl
  · simpa using inv

theorem traceInv_clearQueue (s : RMState) (outs : List (Nat × QOutcome))
    (inv : TraceInv s outs) :
    TraceInv (clearQueue s).1 (outs ++ (clearQueue s).2) := by
  simp only [clearQueue]
  have hfold : s.queue.foldl (fun t op => t.erase op.id) s.timers
      = (s.queue.map (fun op => op.id)).foldl (fun tt a => tt.erase a) s.timers :=
    (List.foldl_map _ _ _ _).symm
  have htmem : ∀ i, i ∈ s.queue.foldl (fun t op => t.erase op.id) s.timers ↔
      i ∈ s.timers ∧ i ∉ queueIds s := by
    intro i
    rw [hfold]
    exact mem_foldl_erase _ s.timers inv.timers_nodup i
  have hout : outIds (outs ++ s.queue.map (fun op => (op.id, QOutcome.cleared)))
      = outIds outs ++ queueIds s := by
    simp [outIds, queueIds, List.map_map]
  constructor
  · show (([] : List QueuedOp).map (fun op => op.id)).Nodup
    simp
  · intro i hi
    simp [queueIds] at hi
  · intro i hi
    have h4 := (htmem i).mp hi
    exact absurd (inv.timers_sub _ h4.1) h4.2
  · intro i hi
    simp [queueIds] at hi
  · rw [hfold]
    exact nodup_foldl_erase _ s.timers inv.timers_nodup
  · rw [hout]
    exact List.nodup_append.mpr ⟨inv.outs_nodup, inv.queue_nodup, by
      intro i hio hiq
      exact inv.outs_disj i hio hiq⟩
  · intro i hi
    rw [hout] at hi
    rcases List.mem_append.mp hi with h4 | h4
    · exact inv.outs_lt _ h4
    · exact inv.queue_lt _ h4
  · intro i hi
    simp [queueIds]

theorem traceInv_step (s : RMState) (outs : List (Nat × QOutcome)) (e : GEvent)
    (inv : TraceInv s outs) :
    TraceInv (step s e).1 (outs ++ (step s e).2) := by
  cases e with
  | request u p now => simpa [step] using traceInv_request s outs u p now inv
  | release u =>
    have hbase : TraceInv
        { s with
          activeBrowsers := max 0 (s.activeBrowsers - 1)
          sessionsByUser := userDecr s.sessionsByUser u } outs :=
      ⟨inv.queue_nodup, inv.queue_lt, inv.timers_sub, inv.queue_sub,
        inv.timers_nodup, inv.outs_nodup, inv.outs_lt, inv.outs_disj⟩
    simpa [step, releaseBrowser] using traceInv_processQueue _ outs hbase
  | timerFires opId => exact traceInv_fireTimeout s outs opId inv
  | clearAll => exact traceInv_clearQueue s outs inv

theorem traceInv_run (s : RMState) (outs : List (Nat × QOutcome)) (events : List GEvent)
    (inv : TraceInv s outs) :
    TraceInv (run s events).1 (outs ++ (run s events).2) := by
  induction events generalizing s outs with
  | nil => simp only [run]; simpa using inv
  | cons e es ih =>
    simp only [run]
    have := ih (step s e).1 (outs ++ (step s e).2) (traceInv_step s outs e inv)
    simpa [List.append_assoc] using this

/-- C4: a queued admission request receives at most one outcome over any
event sequence, counting grants, user-limit rejections, timeouts and
queue-clears together, and an id that has received its outcome is no longer
in the queue, so no request is both granted and timed out; moreover every
request still queued has its timeout timer armed, and firing that timer
delivers exactly the timeout outcome for that request.  Eventual delivery of
the armed timeout is the firing of the NodeJS timer, which the embedding
exposes as the timerFires event. -/
theorem c4_exactly_one_outcome (cfg : ResourceConfig) (events : List GEvent) (opId : Nat) :
    (outIds (run (initState cfg) events).2).count opId
        + (queueIds (run (initState cfg) events).1).count opId ≤ 1 ∧
      ∀ i ∈ queueIds (run (initState cfg) events).1,
        (fireTimeout (run (initState cfg) events).1 i).2 = [(i, QOutcome.timedOut)] := by
  have inv := traceInv_run (initState cfg) [] events (traceInv_init cfg)
  simp only [List.nil_append] at inv
  constructor
  · by_cases h : opId ∈ outIds (run (initState cfg) events).2
    · have h0 : (queueIds (run (initState cfg) events).1).count opId = 0 :=
        List.count_eq_zero.mpr (inv.outs_disj _ h)
      have h1 : (outIds (run (initState cfg) events).2).count opId ≤ 1 :=
        List.nodup_iff_count_le_one.mp inv.outs_nodup opId
      omega
    · have h0 : (outIds (run (initState cfg) events).2).count opId = 0 :=
        List.count_eq_zero.mpr h
      have h1 : (queueIds (run (initState cfg) events).1).count opId ≤ 1 :=
        List.nodup_iff_count_le_one.mp inv.queue_nodup opId
      omega
  · intro i hi
    have harm : i ∈ (run (initState cfg) events).1.timers := inv.queue_sub _ hi
    simp [fireTimeout, harm]

/-- Witness for c4_exactly_one_outcome: with one capacity slot taken, a
second request is queued as operation 1; it has received no outcome yet, sits
once in the queue, and firing its armed timer delivers exactly its timeout. -/
theorem c4_exactly_one_outcome_witness :
    ((outIds (run (initState
        { maxConcurrentBrowsers := 1, maxSessionsPerUser := 3,
          maxQueueSize := 50, queueTimeout := 300000 })
        [GEvent.request none 0 0, GEvent.request none 0 1]).2).count 1
      + (queueIds (run (initState
        { maxConcurrentBrowsers := 1, maxSessionsPerUser := 3,
          maxQueueSize := 50, queueTimeout := 300000 })
        [GEvent.request none 0 0, GEvent.request none 0 1]).1).count 1 ≤ 1) ∧
    (fireTimeout (run (initState
        { maxConcurrentBrowsers := 1, maxSessionsPerUser := 3,
          maxQueueSize := 50, queueTimeout := 300000 })
        [GEvent.request none 0 0, GEvent.request none 0 1]).1 1).2
      = [(1, QOutcome.timedOut)] := by
  have h := c4_exactly_one_outcome
    { maxConcurrentBrowsers := 1, maxSessionsPerUser := 3,
      maxQueueSize := 50, queueTimeout := 300000 }
    [GEvent.request none 0 0, GEvent.request none 0 1] 1
  exact ⟨h.1, h.2 1 (by decide)⟩

/-! ## Priority ordering of grants -/

theorem opLE_refl (a : QueuedOp) : opLE a a = true := by simp [opLE]

theorem opLE_of_cmpBefore {a b : QueuedOp} (h : cmpBefore a b = true) : opLE a b = true := by
  unfold cmpBefore at h
  unfold opLE
  by_cases hp : a.priority = b.priority
  · simp [hp] at h ⊢
    omega
  · simp [hp] at h ⊢
    omega

theorem opLE_of_not_cmpBefore {a b : QueuedOp} (h : cmpBefore a b = false) :
    opLE b a = true := by
  unfold cmpBefore at h
  unfold opLE
  by_cases hp : a.priority = b.priority
  · simp [hp] at h ⊢
    omega
  · simp [hp, Ne.symm hp] at h ⊢
    omega

theorem opLE_iff (a b : QueuedOp) : opLE a b = true ↔
    (a.priority = b.priority ∧ a.createdAt ≤ b.createdAt) ∨ a.priority > b.priority := by
  unfold opLE
  by_cases hp : a.priority = b.priority <;> simp [hp]

theorem opLE_trans {a b c : QueuedOp} (h1 : opLE a b = true) (h2 : opLE b c = true) :
    opLE a c = true := by
  rw [opLE_iff] at h1 h2 ⊢
  omega

theorem mem_insertOp {op x : QueuedOp} {q : List QueuedOp} :
    x ∈ insertOp op q ↔ x = op ∨ x ∈ q := by
  rw [(insertOp_perm op q).mem_iff]
  simp

theorem insertOp_sorted (op : QueuedOp) (q : List QueuedOp) (h : queueSortedLE q) :
    queueSortedLE (insertOp op q) := by
  induction q with
  | nil => simp [insertOp, queueSortedLE]
  | cons e rest ih =>
    rw [queueSortedLE, List.pairwise_cons] at h
    obtain ⟨he, hrest⟩ := h
    simp only [insertOp]
    split
    · rename_i hcb
      rw [queueSortedLE, List.pairwise_cons]
      refine ⟨?_, List.pairwise_cons.mpr ⟨he, hrest⟩⟩
      intro x hx
      rcases List.mem_cons.mp hx with hx | hx
      · subst hx
        exact opLE_of_cmpBefore hcb
      · exact opLE_trans (opLE_of_cmpBefore hcb) (he x hx)
    · rename_i hcb
      rw [queueSortedLE, List.pairwise_cons]
      refine ⟨?_, ih hrest⟩
      intro x hx
      rcases mem_insertOp.mp hx with hx | hx
      · subst hx
        exact opLE_of_not_cmpBefore (by simpa using hcb)
      · exact he x hx

theorem step_sorted (s : RMState) (e : GEvent) (h : queueSortedLE s.queue) :
    queueSortedLE (step s e).1.queue := by
  cases e with
  | request u p now =>
    simp only [step, requestBrowserLaunch, enqueueOp]
    split
    · split
      · exact h
      · exact insertOp_sorted _ _ h
    · split
      · exact h
      · exact h
  | release u =>
    simp only [step, releaseBrowser, processQueue]
    split
    · exact h
    · obtain ⟨pre, h1, _, _⟩ := processLoop_split s.config s.queue
        (max 0 (s.activeBrowsers - 1)) (userDecr s.sessionsByUser u) s.timers
      exact (List.pairwise_append.mp (h1 ▸ h)).2.1
  | timerFires opId =>
    simp only [step, fireTimeout, removeFromQueue]
    split
    · split
      · exact h
      · exact List.Pairwise.sublist (List.eraseP_sublist _) h
    · exact h
  | clearAll => simp [step, clearQueue, queueSortedLE]

theorem run_sorted (s : RMState) (events : List GEvent) (h : queueSortedLE s.queue) :
    queueSortedLE (run s events).1.queue := by
  induction events generalizing s with
  | nil => exact h
  | cons e es ih =>
    simp only [run]
    exact ih (step s e).1 (step_sorted s e h)

theorem step_processing (s : RMState) (e : GEvent) (h : s.processing = false) :
    (step s e).1.processing = false := by
  cases e with
  | request u p now =>
    simp only [step, requestBrowserLaunch, enqueueOp]
    split
    · split
      · exact h
      · exact h
    · split
      · exact h
      · exact h
  | release u =>
    simp only [step, releaseBrowser, processQueue]
    split
    · exact h
    · rfl
  | timerFires opId =>
    simp only [step, fireTimeout, removeFromQueue]
    split
    · split
      · exact h
      · exact h
    · exact h
  | clearAll => exact h

theorem run_processing (s : RMState) (events : List GEvent) (h : s.processing = false) :
    (run s events).1.processing = false := by
  induction events generalizing s with
  | nil => exact h
  | cons e es ih =>
    simp only [run]
    exact ih (step s e).1 (step_processing s e h)

theorem find?_split {α : Type} (p : α → Bool) (l : List α) (x : α)
    (h : l.find? p = some x) :
    ∃ l1 l2, l = l1 ++ x :: l2 ∧ ∀ y ∈ l1, p y = false := by
  induction l with
  | nil => simp [List.find?] at h
  | cons a rest ih =>
    cases hpa : p a with
    | true =>
      rw [List.find?_cons_of_pos _ hpa] at h
      obtain rfl : a = x := by simpa using h
      exact ⟨[], rest, rfl, by simp⟩
    | false =>
      rw [List.find?_cons_of_neg _ (by simp [hpa])] at h
      obtain ⟨l1, l2, rfl, hl1⟩ := ih h
      refine ⟨a :: l1, l2, rfl, ?_⟩
      intro y hy
      rcases List.mem_cons.mp hy with hy | hy
      · subst hy
        exact hpa
      · exact hl1 y hy

theorem find?_eligible_minimal (q : List QueuedOp) (p : QueuedOp → Bool) (op : QueuedOp)
    (hs : queueSortedLE q) (h : q.find? p = some op) :
    ∀ e ∈ q, p e = true → opLE op e = true := by
  obtain ⟨l1, l2, rfl, hl1⟩ := find?_split p q op h
  intro e he hpe
  rcases List.mem_append.mp he with h1 | h1
  · rw [hl1 e h1] at hpe
    cases hpe
  · rcases List.mem_cons.mp h1 with h1 | h1
    · rw [h1]
      exact opLE_refl op
    · have h2 := (List.pairwise_append.mp hs).2.1
      exact (List.pairwise_cons.mp h2).1 e h1

theorem processLoop_first_grant (cfg : ResourceConfig) (q : List QueuedOp) :
    ∀ active users timers, active < cfg.maxConcurrentBrowsers →
      (((processLoop cfg q active users timers).resolved.filter
          (fun o => o.2 == QOutcome.granted)).head?).map (fun o => o.1)
        = (q.find? (fun op => !(atUserLimitQueued cfg users op.userId))).map
            (fun op => op.id) := by
  induction q with
  | nil =>
    intro active users timers _
    simp [processLoop]
  | cons op rest ih =>
    intro active users timers hlt
    simp only [processLoop, if_pos hlt]
    by_cases hu : atUserLimitQueued cfg users op.userId = true
    · rw [if_pos hu]
      have hfind : ((op :: rest).find? (fun op2 => !(atUserLimitQueued cfg users op2.userId)))
          = rest.find? (fun op2 => !(atUserLimitQueued cfg users op2.userId)) := by
        apply List.find?_cons_of_neg
        simp [hu]
      rw [hfind]
      have hfilter : (((op.id, QOutcome.userLimitRejected) ::
            (processLoop cfg rest active users (timers.erase op.id)).resolved).filter
            (fun o => o.2 == QOutcome.granted))
          = ((processLoop cfg rest active users (timers.erase op.id)).resolved.filter
            (fun o => o.2 == QOutcome.granted)) := by
        rw [List.filter_cons_of_neg]
        simp
      simpa [hfilter] using ih active users (timers.erase op.id) hlt
    · rw [if_neg hu]
      have hfind : ((op :: rest).find? (fun op2 => !(atUserLimitQueued cfg users op2.userId)))
          = some op := by
        apply List.find?_cons_of_pos
        simp [hu]
      rw [hfind]
      have hfilter : (((op.id, QOutcome.granted) ::
            (processLoop cfg rest (active + 1) (userIncr users op.userId)
              (timers.erase op.id)).resolved).filter (fun o => o.2 == QOutcome.granted)).head?
          = some (op.id, QOutcome.granted) := by
        rw [List.filter_cons_of_pos]
        · rfl
        · simp
      simpa using hfilter

/-- C5: when releaseBrowser frees a unit of capacity, the first grant of the
triggered queue reprocessing goes to the first still-eligible request in the
sorted queue, and that request serves no later than every eligible waiting
request: strictly higher priority first, and first-in-first-out by enqueue
time among equal priorities.  Requests popped before it are the ineligible
ones, which are rejected with the per-user-limit error rather than granted. -/
theorem c5_release_grants_highest_priority (cfg : ResourceConfig) (events : List GEvent)
    (u : Option String)
    (hcap : max 0 ((run (initState cfg) events).1.activeBrowsers - 1)
      < cfg.maxConcurrentBrowsers) :
    ((((releaseBrowser (run (initState cfg) events).1 u).2.filter
        (fun o => o.2 == QOutcome.granted)).head?).map (fun o => o.1)
      = (((run (initState cfg) events).1.queue.find?
          (fun op => !(atUserLimitQueued cfg
            (userDecr (run (initState cfg) events).1.sessionsByUser u) op.userId))).map
          (fun op => op.id)))
    ∧ ∀ op, ((run (initState cfg) events).1.queue.find?
          (fun op2 => !(atUserLimitQueued cfg
            (userDecr (run (initState cfg) events).1.sessionsByUser u) op2.userId))
          = some op) →
        ∀ e ∈ (run (initState cfg) events).1.queue,
          (!(atUserLimitQueued cfg
            (userDecr (run (initState cfg) events).1.sessionsByUser u) e.userId)) = true →
          opLE op e = true := by
  have hcfg : (run (initState cfg) events).1.config = cfg := run_config _ _
  have hproc : (run (initState cfg) events).1.processing = false :=
    run_processing _ _ rfl
  have hsort : queueSortedLE (run (initState cfg) events).1.queue :=
    run_sorted _ _ (by simp [initState, queueSortedLE])
  constructor
  · simp only [releaseBrowser, processQueue]
    by_cases hq : (run (initState cfg) events).1.queue.isEmpty
    · rw [if_pos (by simp [hproc, hq])]
      have hnil : (run (initState cfg) events).1.queue = [] := by
        simpa using hq
      simp [hnil]
    · rw [if_neg (by simp [hproc, hq])]
      have := processLoop_first_grant (run (initState cfg) events).1.config
        (run (initState cfg) events).1.queue
        (max 0 ((run (initState cfg) events).1.activeBrowsers - 1))
        (userDecr (run (initState cfg) events).1.sessionsByUser u)
        (run (initState cfg) events).1.timers (by rw [hcfg]; exact hcap)
      simpa [hcfg] using this
  · intro op hfind e he hpe
    exact find?_eligible_minimal _ _ op hsort hfind e he hpe

/-- Witness for c5_release_grants_highest_priority: one slot, two queued
requests with priorities 5 and 1; releasing grants the priority-5 request
(operation 1) first, and it serves no later than the other eligible
request. -/
theorem c5_release_grants_highest_priority_witness :
    ((releaseBrowser (run (initState
        { maxConcurrentBrowsers := 1, maxSessionsPerUser := 3,
          maxQueueSize := 50, queueTimeout := 300000 })
        [GEvent.request none 0 0, GEvent.request (some "u2") 5 1,
          GEvent.request none 1 2]).1 none).2.filter
      (fun o => o.2 == QOutcome.granted)).head?.map (fun o => o.1) = some 1
    ∧ opLE (QueuedOp.mk 1 (some "u2") 5 1) (QueuedOp.mk 2 none 1 2) = true := by
  have h := c5_release_grants_highest_priority
    { maxConcurrentBrowsers := 1, maxSessionsPerUser := 3,
      maxQueueSize := 50, queueTimeout := 300000 }
    [GEvent.request none 0 0, GEvent.request (some "u2") 5 1, GEvent.request none 1 2]
    none (by decide)
  refine ⟨h.1.trans (by decide), ?_⟩
  exact h.2 (QueuedOp.mk 1 (some "u2") 5 1) (by decide)
    (QueuedOp.mk 2 none 1 2) (by decide) (by decide)

/-! ## Association-list lemmas for registry and store -/

theorem alGet_nil {α : Type} (k : String) : alGet ([] : List (String × α)) k = none := rfl

theorem alGet_cons {α : Type} (p : String × α) (rest : List (String × α)) (k : String) :
    alGet (p :: rest) k = if p.1 = k then some p.2 else alGet rest k := by
  by_cases hp : p.1 = k
  · have hb : (p.1 == k) = true := by simpa using hp
    simp [alGet, List.find?, hb, hp]
  · have hb : (p.1 == k) = false := by simpa using hp
    simp [alGet, List.find?, hb, hp]

theorem alSet_cons {α : Type} (p : String × α) (rest : List (String × α)) (k : String)
    (v : α) : alSet (p :: rest) k v
      = if p.1 = k then (k, v) :: rest else p :: alSet rest k v := by
  by_cases hp : p.1 = k
  · have hb : (p.1 == k) = true := by simpa using hp
    simp [alSet, hb, hp]
  · have hb : (p.1 == k) = false := by simpa using hp
    simp [alSet, hb, hp]

theorem alErase_cons {α : Type} (p : String × α) (rest : List (String × α)) (k : String) :
    alErase (p :: rest) k = if p.1 = k then rest else p :: alErase rest k := by
  by_cases hp : p.1 = k
  · have hb : (p.1 == k) = true := by simpa using hp
    simp [alErase, hb, hp]
  · have hb : (p.1 == k) = false := by simpa using hp
    simp [alErase, hb, hp]

theorem alGet_alSet_self {α : Type} (m : List (String × α)) (k : String) (v : α) :
    alGet (alSet m k v) k = some v := by
  induction m with
  | nil => simp [alSet, alGet_cons]
  | cons p rest ih =>
    rw [alSet_cons]
    by_cases hp : p.1 = k
    · rw [if_pos hp, alGet_cons, if_pos rfl]
    · rw [if_neg hp, alGet_cons, if_neg hp]
      exact ih

theorem alGet_alSet_ne {α : Type} (m : List (String × α)) (k k2 : String) (v : α)
    (h : k ≠ k2) : alGet (alSet m k v) k2 = alGet m k2 := by
  induction m with
  | nil => simp [alSet, alGet_cons, alGet_nil, h]
  | cons p rest ih =>
    rw [alSet_cons]
    by_cases hp : p.1 = k
    · rw [if_pos hp, alGet_cons, if_neg h, alGet_cons, if_neg (hp ▸ h)]
    · rw [if_neg hp, alGet_cons, alGet_cons, ih]

theorem alGet_alErase_ne {α : Type} (m : List (String × α)) (k k2 : String)
    (h : k ≠ k2) : alGet (alErase m k) k2 = alGet m k2 := by
  induction m with
  | nil => rfl
  | cons p rest ih =>
    rw [alErase_cons]
    by_cases hp : p.1 = k
    · rw [if_pos hp, alGet_cons, if_neg (hp ▸ h)]
    · rw [if_neg hp, alGet_cons, alGet_cons, ih]

theorem alGet_eq_none_of_not_mem_keys {α : Type} (m : List (String × α)) (k : String)
    (h : k ∉ m.map (fun p => p.1)) : alGet m k = none := by
  induction m with
  | nil => rfl
  | cons p rest ih =>
    simp only [List.map_cons, List.mem_cons, not_or] at h
    rw [alGet_cons, if_neg (fun hc => h.1 hc.symm)]
    exact ih h.2

theorem mem_keys_alSet {α : Type} (m : List (String × α)) (k k2 : String) (v : α) :
    k2 ∈ (alSet m k v).map (fun p => p.1) ↔ k2 = k ∨ k2 ∈ m.map (fun p => p.1) := by
  induction m with
  | nil => simp [alSet]
  | cons p rest ih =>
    rw [alSet_cons]
    by_cases hp : p.1 = k
    · rw [if_pos hp]
      simp [hp]
    · rw [if_neg hp]
      simp only [List.map_cons, List.mem_cons, ih]
      tauto

theorem keys_nodup_alSet {α : Type} (m : List (String × α)) (k : String) (v : α)
    (h : (m.map (fun p => p.1)).Nodup) : ((alSet m k v).map (fun p => p.1)).Nodup := by
  induction m with
  | nil => simp [alSet]
  | cons p rest ih =>
    rw [List.map_cons, List.nodup_cons] at h
    rw [alSet_cons]
    by_cases hp : p.1 = k
    · rw [if_pos hp]
      rw [List.map_cons, List.nodup_cons]
      exact ⟨hp ▸ h.1, h.2⟩
    · rw [if_neg hp]
      rw [List.map_cons, List.nodup_cons]
      refine ⟨?_, ih h.2⟩
      rw [mem_keys_alSet]
      push_neg
      exact ⟨fun hc => hp hc, h.1⟩

theorem alErase_sublist {α : Type} (m : List (String × α)) (k : String) :
    (alErase m k).Sublist m := by
  induction m with
  | nil => simp [alErase]
  | cons p rest ih =>
    rw [alErase_cons]
    by_cases hp : p.1 = k
    · rw [if_pos hp]
      exact List.sublist_cons_self p rest
    · rw [if_neg hp]
      exact ih.cons₂ p

theorem alGet_alErase_self {α : Type} (m : List (String × α)) (k : String)
    (h : (m.map (fun p => p.1)).Nodup) : alGet (alErase m k) k = none := by
  induction m with
  | nil => rfl
  | cons p rest ih =>
    rw [List.map_cons, List.nodup_cons] at h
    rw [alErase_cons]
    by_cases hp : p.1 = k
    · rw [if_pos hp]
      exact alGet_eq_none_of_not_mem_keys rest k (hp ▸ h.1)
    · rw [if_neg hp, alGet_cons, if_neg hp]
      exact ih h.2

/-! ## Registry well-formedness along a run -/

theorem session_gen_ne_empty (t : String) : ("session-" ++ t) ≠ "" := by
  intro hc
  have hl := congrArg String.length hc
  rw [String.length_append] at hl
  have h8 : "session-".length = 8 := rfl
  have h0 : String.length "" = 0 := rfl
  omega

theorem genId_ne_empty (sid : Option String) (next : Nat) : (genId sid next).1 ≠ "" := by
  cases sid with
  | none => exact session_gen_ne_empty (toString next)
  | some s =>
    by_cases hs : s = ""
    · subst hs
      simpa [genId] using session_gen_ne_empty (toString next)
    · simpa [genId, hs] using hs

theorem regWF_createSession (reg : Registry) (st : Store) (sid : Option String)
    (settings : Option BrowserSettings) (now : Int) (h : RegWF reg) :
    RegWF (createSession reg st sid settings now).2.1 := by
  simp only [createSession]
  split
  · exact h
  · constructor
    · exact keys_nodup_alSet _ _ _ h.1
    · intro p hp
      rcases mem_alSet hp with hp | hp
      · rw [hp]
        exact genId_ne_empty sid reg.nextSessionId
      · exact h.2 p hp

theorem regWF_getSession (reg : Registry) (sid : Option String) (now : Int)
    (h : RegWF reg) : RegWF (getSession reg sid now).2 := by
  simp only [getSession]
  split
  · exact h
  · rename_i id sess hget
    constructor
    · exact keys_nodup_alSet _ _ _ h.1
    · intro p hp
      rcases mem_alSet hp with hp | hp
      · obtain ⟨q, hqm, hq1, _⟩ := alGet_some_mem hget
        rw [hp]
        show _ ≠ ""
        rw [← hq1]
        exact h.2 q hqm
      · exact h.2 p hp

theorem regWF_erase (reg : Registry) (sid : String) (h : RegWF reg) :
    RegWF { reg with sessions := alErase reg.sessions sid } := by
  constructor
  · exact List.Nodup.sublist ((alErase_sublist reg.sessions sid).map (fun p => p.1)) h.1
  · intro p hp
    exact h.2 p (mem_alErase hp)

theorem regWF_recoverSession (reg : Registry) (st : Store) (sid : String) (now : Int)
    (h : RegWF reg) : RegWF (recoverSession reg st sid now).2.1 := by
  unfold recoverSession
  split
  · exact h
  · rename_i data hload
    split
    · rename_i e reg1 st1 heq
      have h1 := regWF_createSession reg st (some sid) (some data.settings) now h
      rw [heq] at h1
      exact h1
    · rename_i newId reg1 st1 heq
      have h1 := regWF_createSession reg st (some sid) (some data.settings) now h
      rw [heq] at h1
      split
      · rename_i reg2 heq2
        have h2 := regWF_getSession reg1 (some newId) now h1
        rw [heq2] at h2
        exact h2
      · rename_i v reg2 heq2
        have h2 := regWF_getSession reg1 (some newId) now h1
        rw [heq2] at h2
        exact h2

theorem regWF_rstep (p : Registry × Store) (e : REvent) (h : RegWF p.1) :
    RegWF (rstep p e).1 := by
  cases e with
  | create sid settings now => exact regWF_createSession p.1 p.2 sid settings now h
  | close sid =>
    simp only [rstep]
    split
    · exact h
    · rename_i reg1 heq
      simp only [closeSession] at heq
      revert heq
      split
      · intro heq
        cases heq
      · intro heq
        cases heq
        exact regWF_erase p.1 sid h
  | disconnect sid => exact regWF_erase p.1 sid h
  | lookup sid now => exact regWF_getSession p.1 sid now h
  | recover sid now => exact regWF_recoverSession p.1 p.2 sid now h

theorem regWF_rrun (p : Registry × Store) (events : List REvent) (h : RegWF p.1) :
    RegWF (rrun p events).1 := by
  induction events generalizing p with
  | nil => exact h
  | cons e es ih => exact ih (rstep p e) (regWF_rstep p e h)

/-! ## Close-then-lookup round trip (C6) -/

/-- C6 as amended: over every reachable registry state, a closeSession that
succeeds leaves getSession on the same id reporting not-found; but a
closeSession on an identifier that is absent, for example because a
disconnection already removed it, throws the not-found error rather than
being a no-op. -/
theorem c6_close_then_get (events : List REvent) (sid : String) (now : Int) :
    ((alGet (rrun rinit events).1.sessions sid).isSome = true →
      closeThenGet (rrun rinit events).1 sid now = Except.ok none)
    ∧ (alGet (rrun rinit events).1.sessions sid = none →
      closeThenGet (rrun rinit events).1 sid now = Except.error (closeErrMsg sid)) := by
  have hwf : RegWF (rrun rinit events).1 :=
    regWF_rrun rinit events (by constructor <;> simp [rinit, initRegistry])
  constructor
  · intro hsome
    rw [Option.isSome_iff_exists] at hsome
    obtain ⟨sess, hget⟩ := hsome
    have hne : sid ≠ "" := by
      obtain ⟨q, hqm, hq1, _⟩ := alGet_some_mem hget
      rw [← hq1]
      exact hwf.2 q hqm
    unfold closeThenGet closeSession
    rw [hget]
    simp only [Except.map]
    unfold getSession
    have hb : (sid == "") = false := by simpa using hne
    simp only [hb, Bool.false_eq_true, if_false]
    rw [alGet_alErase_self _ sid hwf.1]
  · intro hnone
    unfold closeThenGet closeSession
    rw [hnone]
    rfl

/-- Witness for c6_close_then_get: close after create reports not-found on
lookup, and close on a never-created id throws the not-found error. -/
theorem c6_close_then_get_witness :
    closeThenGet (rrun rinit [REvent.create (some "s1") none 0]).1 "s1" 5 = Except.ok none
    ∧ closeThenGet (rrun rinit [REvent.create (some "s1") none 0]).1 "s2" 5
      = Except.error (closeErrMsg "s2") := by
  have h1 := c6_close_then_get [REvent.create (some "s1") none 0] "s1" 5
  have h2 := c6_close_then_get [REvent.create (some "s1") none 0] "s2" 5
  exact ⟨h1.1 (by decide), h2.2 (by decide)⟩

/-- Counterexample to C6 as stated: closeSession on an identifier that is
absent from the registry throws the not-found error instead of returning
without error.  The initial registry is reachable (empty event list). -/
theorem c6_counterexample :
    closeSession initRegistry "s1" = Except.error (closeErrMsg "s1") := rfl

/-! ## Empty-string session identifier (C10) -/

/-- C10: the empty string as a session identifier behaves exactly like an
omitted identifier: getSession falls back to the default session (returning
it when present), createSession with the empty string equals createSession
with no id, never registers anything under the empty string, and any id it
returns is the freshly generated session-<counter>. -/
theorem c10_empty_session_id (events : List REvent) (settings : Option BrowserSettings)
    (now : Int) :
    getSession (rrun rinit events).1 (some "") now = getSession (rrun rinit events).1 none now
    ∧ createSession (rrun rinit events).1 (rrun rinit events).2 (some "") settings now
      = createSession (rrun rinit events).1 (rrun rinit events).2 none settings now
    ∧ (∀ d, alGet (rrun rinit events).1.sessions defaultSessionId = some d →
        (getSession (rrun rinit events).1 (some "") now).1
          = some { d with lastAccessedAt := now })
    ∧ alGet (createSession (rrun rinit events).1 (rrun rinit events).2 (some "")
        settings now).2.1.sessions "" = none
    ∧ (∀ idv, (createSession (rrun rinit events).1 (rrun rinit events).2 (some "")
          settings now).1 = Except.ok idv →
        idv = "session-" ++ toString (rrun rinit events).1.nextSessionId) := by
  have hwf : RegWF (rrun rinit events).1 :=
    regWF_rrun rinit events (by constructor <;> simp [rinit, initRegistry])
  refine ⟨rfl, rfl, ?_, ?_, ?_⟩
  · intro d hd
    unfold getSession
    simp only [show (("" : String) == "") = true from rfl, if_true]
    rw [hd]
  · apply alGet_eq_none_of_not_mem_keys
    intro hmem
    obtain ⟨q, hq, hq1⟩ := List.mem_map.mp hmem
    exact (regWF_createSession (rrun rinit events).1 (rrun rinit events).2 (some "")
      settings now hwf).2 q hq hq1
  · intro idv hok
    unfold createSession genId at hok
    simp only [show (("" : String) == "") = true from rfl, if_true] at hok
    revert hok
    split
    · intro hok
      cases hok
    · intro hok
      cases hok
      rfl

/-- Witness for c10_empty_session_id: with the default session created,
getSession on the empty string returns it; a create with the empty string
registers nothing under the empty string and returns session-1. -/
theorem c10_empty_session_id_witness :
    (getSession (rrun rinit [REvent.create (some "default") none 0]).1 (some "") 5).1
      = some (SessionRec.mk "default" BType.chromium [] 0 5 none)
    ∧ alGet (createSession (rrun rinit [REvent.create (some "default") none 0]).1
        (rrun rinit [REvent.create (some "default") none 0]).2 (some "") none 5).2.1.sessions
        "" = none
    ∧ ("session-1" : String)
      = "session-" ++ toString (rrun rinit
          [REvent.create (some "default") none 0]).1.nextSessionId := by
  have h := c10_empty_session_id [REvent.create (some "default") none 0] none 5
  refine ⟨?_, h.2.2.2.1, ?_⟩
  · exact h.2.2.1 (SessionRec.mk "default" BType.chromium [] 0 0 none) (by decide)
  · exact h.2.2.2.2 "session-1" rfl

/-! ## Save-load round trip (C8) -/

theorem roundtrip_preserved (r : PersistedSessionData) (ops : List StoreOp) :
    ∀ st : Store,
      (∀ op ∈ ops, getSessionFilePath (touches op) ≠ getSessionFilePath r.id) →
      loadSession st r.id = some r →
      loadSession (applyStoreOps st ops) r.id = some r := by
  induction ops with
  | nil =>
    intro st _ h2
    exact h2
  | cons op rest ih =>
    intro st hops h2
    simp only [applyStoreOps]
    apply ih _ (fun o ho => hops o (List.mem_cons_of_mem _ ho))
    cases op with
    | save r2 =>
      have hne : getSessionFilePath r2.id ≠ getSessionFilePath r.id :=
        hops (StoreOp.save r2) (List.mem_cons_self _ _)
      unfold loadSession applyStoreOp saveSession
      rw [alGet_alSet_ne _ _ _ _ hne]
      exact h2
    | del sid =>
      have hne : getSessionFilePath sid ≠ getSessionFilePath r.id :=
        hops (StoreOp.del sid) (List.mem_cons_self _ _)
      unfold loadSession applyStoreOp deleteSession
      rw [alGet_alErase_ne _ _ _ hne]
      exact h2

/-- C8 as amended: saveSession followed by loadSession on the same
identifier returns the record that was saved, and the round trip survives
every further save and delete whose identifier resolves, after the path.join
normalization of getSessionFilePath, to a different file.  It does not
survive a save or delete under a different identifier that aliases the same
file, such as ./s1 against s1, because the identifier-to-path map is not
injective. -/
theorem c8_save_load_roundtrip (st : Store) (r : PersistedSessionData)
    (ops : List StoreOp)
    (h : ∀ op ∈ ops, getSessionFilePath (touches op) ≠ getSessionFilePath r.id) :
    loadSession (applyStoreOps (saveSession st r) ops) r.id = some r :=
  roundtrip_preserved r ops (saveSession st r) h
    (alGet_alSet_self st (getSessionFilePath r.id) r)

/-- Witness for c8_save_load_roundtrip: a saved record survives a save of a
different id and an unrelated delete, neither of which aliases its file. -/
theorem c8_save_load_roundtrip_witness :
    loadSession (applyStoreOps (saveSession ([] : Store)
        (PersistedSessionData.mk "s1" BType.chromium
          (BrowserSettings.mk none none none) "about:blank" [] [] [] (1280, 720) 0 0))
        [StoreOp.save (PersistedSessionData.mk "s2" BType.firefox
            (BrowserSettings.mk none none none) "about:blank" [] [] [] (800, 600) 1 1),
          StoreOp.del "s3"]) "s1"
      = some (PersistedSessionData.mk "s1" BType.chromium
          (BrowserSettings.mk none none none) "about:blank" [] [] [] (1280, 720) 0 0) :=
  c8_save_load_roundtrip ([] : Store)
    (PersistedSessionData.mk "s1" BType.chromium
      (BrowserSettings.mk none none none) "about:blank" [] [] [] (1280, 720) 0 0)
    [StoreOp.save (PersistedSessionData.mk "s2" BType.firefox
        (BrowserSettings.mk none none none) "about:blank" [] [] [] (800, 600) 1 1),
      StoreOp.del "s3"] (by decide)

/-- Counterexample to C8 as stated: the identifiers ./s1 and s1 are
distinct, yet path.join normalization sends both to the same file, so a
saveSession under ./s1, an operation on a different identifier, overwrites
the record saved under s1: the round trip is broken by an operation that is
not a subsequent saveSession or deleteSession on that identifier. -/
theorem c8_counterexample :
    ("./s1" : String) ≠ "s1"
    ∧ getSessionFilePath "./s1" = getSessionFilePath "s1"
    ∧ loadSession (applyStoreOps (saveSession ([] : Store)
        (PersistedSessionData.mk "s1" BType.chromium
          (BrowserSettings.mk none none none) "about:blank" [] [] [] (1280, 720) 0 0))
        [StoreOp.save (PersistedSessionData.mk "./s1" BType.firefox
            (BrowserSettings.mk none none none) "about:blank" [] [] [] (800, 600) 1 1)])
        "s1"
      = some (PersistedSessionData.mk "./s1" BType.firefox
          (BrowserSettings.mk none none none) "about:blank" [] [] [] (800, 600) 1 1)
    ∧ PersistedSessionData.mk "./s1" BType.firefox
          (BrowserSettings.mk none none none) "about:blank" [] [] [] (800, 600) 1 1
        ≠ PersistedSessionData.mk "s1" BType.chromium
          (BrowserSettings.mk none none none) "about:blank" [] [] [] (1280, 720) 0 0 := by
  refine ⟨by decide, rfl, rfl, by decide⟩

/-! ## Recovery outcomes (C9) -/

theorem recoverAllLoop_length (now : Int) (ds : List PersistedSessionData) :
    ∀ reg st, (recoverAllLoop now ds reg st).1.1.length
        + (recoverAllLoop now ds reg st).1.2.length = ds.length := by
  induction ds with
  | nil =>
    intro reg st
    rfl
  | cons d rest ih =>
    intro reg st
    simp only [recoverAllLoop]
    cases hr : (recoverSession reg st d.id now).1 with
    | some sid =>
      simp only [hr, List.length_cons]
      have := ih (recoverSession reg st d.id now).2.1 (recoverSession reg st d.id now).2.2
      omega
    | none =>
      simp only [hr, List.length_cons]
      have := ih (recoverSession reg st d.id now).2.1 (recoverSession reg st d.id now).2.2
      omega

/-- C9 as amended: recoverSession returns null without creating a session
when no persisted record exists, and it also returns null when the record
exists but recreating the session fails, so the two cases are not
distinguishable from the return value; batch recovery still attempts every
persisted record independently, each contributing exactly one entry to the
recovered list or the failed list. -/
theorem c9_recover_outcomes (reg : Registry) (st : Store) (sid : String) (now : Int) :
    (loadSession st sid = none → recoverSession reg st sid now = (none, reg, st))
    ∧ (∀ d e reg1 st1, loadSession st sid = some d →
        createSession reg st (some sid) (some d.settings) now = (Except.error e, reg1, st1) →
        (recoverSession reg st sid now).1 = none)
    ∧ ((recoverAllSessions reg st now).1.1.length
        + (recoverAllSessions reg st now).1.2.length = (loadAllSessions st).length) := by
  refine ⟨?_, ?_, ?_⟩
  · intro h
    unfold recoverSession
    rw [h]
  · intro d e reg1 st1 hload hcreate
    simp only [recoverSession, hload, hcreate]
  · exact recoverAllLoop_length now (loadAllSessions st) reg st

/-- Witness for c9_recover_outcomes: the not-found path on an empty store,
the failure path on an already-registered id, and the batch length
equation. -/
theorem c9_recover_outcomes_witness :
    recoverSession initRegistry ([] : Store) "s1" 5 = (none, initRegistry, ([] : Store))
    ∧ (recoverSession (Registry.mk [("s1", SessionRec.mk "s1" BType.chromium [] 0 0 none)] 2)
        (saveSession ([] : Store) (PersistedSessionData.mk "s1" BType.chromium
          (BrowserSettings.mk none none none) "about:blank" [] [] [] (1280, 720) 0 0))
        "s1" 5).1 = none
    ∧ (recoverAllSessions initRegistry ([] : Store) 5).1.1.length
        + (recoverAllSessions initRegistry ([] : Store) 5).1.2.length
        = (loadAllSessions ([] : Store)).length := by
  have h1 := c9_recover_outcomes initRegistry ([] : Store) "s1" 5
  have h2 := c9_recover_outcomes
    (Registry.mk [("s1", SessionRec.mk "s1" BType.chromium [] 0 0 none)] 2)
    (saveSession ([] : Store) (PersistedSessionData.mk "s1" BType.chromium
      (BrowserSettings.mk none none none) "about:blank" [] [] [] (1280, 720) 0 0))
    "s1" 5
  refine ⟨h1.1 rfl, ?_, h1.2.2⟩
  exact h2.2.1 (PersistedSessionData.mk "s1" BType.chromium
      (BrowserSettings.mk none none none) "about:blank" [] [] [] (1280, 720) 0 0)
    "Session with ID s1 already exists"
    (Registry.mk [("s1", SessionRec.mk "s1" BType.chromium [] 0 0 none)] 2)
    (saveSession ([] : Store) (PersistedSessionData.mk "s1" BType.chromium
      (BrowserSettings.mk none none none) "about:blank" [] [] [] (1280, 720) 0 0))
    rfl rfl

/-- Counterexample to C9 as stated: a failing recovery (record present,
session recreation throws already-exists) and a not-found recovery (no
record) both return null, so the failure is not surfaced distinctly from the
normal not-found outcome. -/
theorem c9_counterexample :
    (loadSession (saveSession ([] : Store) (PersistedSessionData.mk "s1" BType.chromium
        (BrowserSettings.mk none none none) "about:blank" [] [] [] (1280, 720) 0 0))
      "s1").isSome = true
    ∧ (recoverSession (Registry.mk [("s1", SessionRec.mk "s1" BType.chromium [] 0 0 none)] 2)
        (saveSession ([] : Store) (PersistedSessionData.mk "s1" BType.chromium
          (BrowserSettings.mk none none none) "about:blank" [] [] [] (1280, 720) 0 0))
        "s1" 5).1 = none
    ∧ loadSession ([] : Store) "s1" = none
    ∧ (recoverSession initRegistry ([] : Store) "s1" 5).1 = none :=
  ⟨rfl, rfl, rfl, rfl⟩

/-! ## Session lifecycle and the governor (C1) -/

/-- C1 as amended: no call path in the repository routes session creation or
teardown through the Resource Governor: createSession, closeSession and the
disconnection callback leave the governor state, in particular the
active-instance count, exactly unchanged, so zero admissions and zero
releases are performed per session. -/
theorem c1_governor_untouched (s : SystemState) (sid : Option String)
    (settings : Option BrowserSettings) (now : Int) (sessionId : String) :
    (sysCreateSession s sid settings now).2.rm = s.rm
    ∧ (sysCloseSession s sessionId).2.rm = s.rm
    ∧ (sysDisconnect s sessionId).rm = s.rm := by
  refine ⟨rfl, ?_, rfl⟩
  simp only [sysCloseSession]
  split
  · rfl
  · rfl

/-- Counterexample to C1 as stated: from the initial combined state,
createSession succeeds and returns the session identifier, yet the governor
active-instance count remains 0 instead of being incremented by the one
admission the claim requires. -/
theorem c1_counterexample :
    (sysCreateSession (SystemState.mk (initState defaultConfig) initRegistry [])
      (some "s1") none 0).1 = Except.ok "s1"
    ∧ (sysCreateSession (SystemState.mk (initState defaultConfig) initRegistry [])
        (some "s1") none 0).2.rm.activeBrowsers = 0
    ∧ (sysCreateSession (SystemState.mk (initState defaultConfig) initRegistry [])
        (some "s1") none 0).2.rm.activeBrowsers
      ≠ (SystemState.mk (initState defaultConfig) initRegistry []).rm.activeBrowsers + 1 := by
  refine ⟨rfl, rfl, by decide⟩

end RunAutomation
